import Mathlib

/-!
# SUDS expression engine: tokenizer, shunting-yard compiler and stack evaluator

A shallow embedding of `Source/SUDS/Private/SUDSExpression.cpp`, followed by the script
graph functions of `Source/SUDS/Private/SUDSScript.cpp`.

* `FString` and `FName` are lists of characters, `TArray` is `List`, a `TMap` that is
  only read through `Find` is a function into `Option`.
* The operator stack and the evaluation stack keep their top at the head of the list;
  the output queue is kept in queue order.
* `checkf` failures and `Pop` on an empty array are faults: `Evaluate` returns `none`.
* What the translation unit uses but does not declare (the integer values of the item
  type enumeration, the value operators and default value of `SUDSValue.h`, the engine's
  number parsers) is collected in the structure `Externals` and stays a parameter.
-/

namespace SUDS

/-- An `FString`: the sequence of its characters. -/
abbrev FString := List Char

/-- An `FName`, by its text. -/
abbrev FName := List Char

/-- The engine's `ETextGender`. -/
inductive ETextGender
  | Masculine
  | Feminine
  | Neuter
  deriving DecidableEq, Repr

/-- Modelled from the spec: `FSUDSValue` (declared in SUDSValue.h), a variant over
Boolean, Int32, Float32, Text, VariableName and Gender. A Float32 is carried by its
bit pattern. -/
inductive FSUDSValue
  | Boolean (b : Bool)
  | Int32 (i : Int)
  | Float32 (bits : Nat)
  | Text (t : FString)
  | VariableName (n : FName)
  | Gender (g : ETextGender)
  deriving DecidableEq, Repr

/-- Modelled from the spec: `FSUDSValue::IsVariable` (SUDSValue.h), the tag test. -/
def FSUDSValue.IsVariable : FSUDSValue → Bool
  | .VariableName _ => true
  | _ => false

/-- The enumerators of `ESUDSExpressionItemType` that the translation unit names. They are
pairwise different values: all seventeen are case labels of the one `switch` in
`EvaluateOperator`. -/
inductive ESUDSExpressionItemType
  | Null
  | Not
  | Multiply
  | Divide
  | Add
  | Subtract
  | Less
  | LessEqual
  | Greater
  | GreaterEqual
  | Equal
  | NotEqual
  | And
  | Or
  | LParens
  | RParens
  | Operand
  deriving DecidableEq, Repr

/-- Modelled from the spec: `FSUDSExpressionItem` (declared in SUDSExpression.h), an item
type together with the operand value it carries. -/
structure FSUDSExpressionItem where
  ItemType : ESUDSExpressionItemType
  OperandValue : FSUDSValue
  deriving DecidableEq, Repr

/-- Modelled from the spec: `FSUDSExpressionItem::IsOperator` (SUDSExpression.h). An item
is either an operand or an operator, the operators being Add, Subtract, Multiply, Divide,
And, Or, Not, the six comparisons and the two parentheses. -/
def ESUDSExpressionItemType.IsOperator : ESUDSExpressionItemType → Bool
  | .Null => false
  | .Operand => false
  | _ => true

/-- Modelled from the spec: `FSUDSExpressionItem::IsBinaryOperator` (SUDSExpression.h).
Operators carry arity: Not is unary, all others binary. -/
def ESUDSExpressionItemType.IsBinaryOperator (t : ESUDSExpressionItemType) : Bool :=
  t.IsOperator && t != .Not

/-- See `ESUDSExpressionItemType.IsOperator`. -/
def FSUDSExpressionItem.IsOperator (Item : FSUDSExpressionItem) : Bool :=
  Item.ItemType.IsOperator

/-- See `ESUDSExpressionItemType.IsBinaryOperator`. -/
def FSUDSExpressionItem.IsBinaryOperator (Item : FSUDSExpressionItem) : Bool :=
  Item.ItemType.IsBinaryOperator

/-- The declarations the translation unit relies on and that are made elsewhere. -/
structure Externals where
  /-- `static_cast<int>` of an item type: the enumerator's declared value
  (SUDSExpression.h). -/
  itemCode : ESUDSExpressionItemType → Nat
  /-- `FDefaultValueHelper::ParseInt`; `none` when it returns false. -/
  ParseInt : FString → Option Int
  /-- `FDefaultValueHelper::ParseFloat`; `none` when it returns false. -/
  ParseFloat : FString → Option Nat
  /-- The default-constructed `FSUDSValue()`. -/
  DefaultValue : FSUDSValue
  /-- `operator!` of `FSUDSValue`. -/
  opNot : FSUDSValue → FSUDSValue
  /-- `operator*` of `FSUDSValue`. -/
  opMultiply : FSUDSValue → FSUDSValue → FSUDSValue
  /-- `operator/` of `FSUDSValue`. -/
  opDivide : FSUDSValue → FSUDSValue → FSUDSValue
  /-- `operator+` of `FSUDSValue`. -/
  opAdd : FSUDSValue → FSUDSValue → FSUDSValue
  /-- `operator-` of `FSUDSValue`. -/
  opSubtract : FSUDSValue → FSUDSValue → FSUDSValue
  /-- `operator<` of `FSUDSValue`. -/
  opLess : FSUDSValue → FSUDSValue → FSUDSValue
  /-- `operator<=` of `FSUDSValue`. -/
  opLessEqual : FSUDSValue → FSUDSValue → FSUDSValue
  /-- `operator>` of `FSUDSValue`. -/
  opGreater : FSUDSValue → FSUDSValue → FSUDSValue
  /-- `operator>=` of `FSUDSValue`. -/
  opGreaterEqual : FSUDSValue → FSUDSValue → FSUDSValue
  /-- `operator==` of `FSUDSValue`. -/
  opEqual : FSUDSValue → FSUDSValue → FSUDSValue
  /-- `operator!=` of `FSUDSValue`. -/
  opNotEqual : FSUDSValue → FSUDSValue → FSUDSValue
  /-- `operator&&` of `FSUDSValue`. -/
  opAnd : FSUDSValue → FSUDSValue → FSUDSValue
  /-- `operator||` of `FSUDSValue`. -/
  opOr : FSUDSValue → FSUDSValue → FSUDSValue

/-- Modelled from the spec: the constructor `FSUDSExpressionItem(ESUDSExpressionItemType)`
(SUDSExpression.h), an operator item; its value is default-constructed. -/
def Externals.operatorItem (X : Externals) (t : ESUDSExpressionItemType) :
    FSUDSExpressionItem :=
  ⟨t, X.DefaultValue⟩

/-- Modelled from the spec: the constructor `FSUDSExpressionItem(const FSUDSValue&)`
(SUDSExpression.h), an operand item carrying the value. -/
def operandItem (v : FSUDSValue) : FSUDSExpressionItem :=
  ⟨.Operand, v⟩

/-- Modelled from the spec: the default constructor `FSUDSExpressionItem()`
(SUDSExpression.h), an item that is neither operand nor operator. -/
def Externals.defaultItem (X : Externals) : FSUDSExpressionItem :=
  ⟨.Null, X.DefaultValue⟩

/-! ## The tokenizer pattern -/

/-- The class `\w` of the pattern, on ASCII. -/
def isWordChar (c : Char) : Bool :=
  c.isAlphanum || c == '_'

/-- The class `\d` of the pattern, on ASCII. -/
def isDigitChar (c : Char) : Bool :=
  c.isDigit

/-- Whether `s` begins with the characters `lit`. -/
def startsWith : List Char → List Char → Bool
  | [], _ => true
  | _ :: _, [] => false
  | l :: ls, c :: cs => l == c && startsWith ls cs

/-- A literal alternative of the pattern, such as `and` or `&&`. -/
def matchLiteral (lit : String) (s : List Char) : Option (List Char) :=
  if startsWith lit.toList s then some lit.toList else none

/-- The alternative `\{\w+\}`. -/
def matchVariableRef : List Char → Option (List Char)
  | [] => none
  | c :: cs =>
    if c == '\x7b' then
      match cs.takeWhile isWordChar, cs.dropWhile isWordChar with
      | w :: ws, d :: _ => if d == '\x7d' then some (c :: (w :: ws) ++ [d]) else none
      | _, _ => none
    else none

/-- The alternative `[-+*\/\(\)]`. -/
def matchArithmetic : List Char → Option (List Char)
  | [] => none
  | c :: _ => if c ∈ ['-', '+', '*', '/', '(', ')'] then some [c] else none

/-- The alternative `\d+(?:\.\d*)?`. -/
def matchNumber (s : List Char) : Option (List Char) :=
  match s.takeWhile isDigitChar with
  | [] => none
  | d :: ds =>
    match s.dropWhile isDigitChar with
    | [] => some (d :: ds)
    | c :: rest =>
      if c == '.' then some ((d :: ds) ++ c :: rest.takeWhile isDigitChar) else some (d :: ds)

/-- The alternatives `\<=?`, `\>=?` and `==?`: the character `c`, then `=` if it is
there. -/
def matchWithOptionalEq (c : Char) : List Char → Option (List Char)
  | [] => none
  | a :: rest =>
    if a == c then
      match rest with
      | [] => some [a]
      | b :: _ => if b == '=' then some [a, b] else some [a]
    else none

/-- The alternative `\"([^\"]*)\"`. -/
def matchQuoted : List Char → Option (List Char)
  | [] => none
  | c :: cs =>
    if c == '\"' then
      match cs.dropWhile (fun x => x != '\"') with
      | [] => none
      | q :: _ => some (c :: cs.takeWhile (fun x => x != '\"') ++ [q])
    else none

/-- The first alternative of a list that matches at the head of `s`. -/
def firstMatch : List (List Char → Option (List Char)) → List Char → Option (List Char)
  | [], _ => none
  | alt :: alts, s =>
    match alt s with
    | some tok => some tok
    | none => firstMatch alts s

/-- The alternatives of the pattern of `ParseFromString`, in the order they are written:
`\{\w+\}`, `[-+*\/\(\)]`, `\d+(?:\.\d*)?`, `and`, `&&`, `\|\|`, `or`, `not`, `\<\>`, `!=`, `!`,
`\<=?`, `\>=?`, `==?`, `\"([^\"]*)\"`. -/
def patternAlternatives : List (List Char → Option (List Char)) :=
  [matchVariableRef, matchArithmetic, matchNumber,
   matchLiteral "and", matchLiteral "&&", matchLiteral "||",
   matchLiteral "or", matchLiteral "not", matchLiteral "<>",
   matchLiteral "!=", matchLiteral "!",
   matchWithOptionalEq '<', matchWithOptionalEq '>', matchWithOptionalEq '=',
   matchQuoted]

/-- One attempt of the pattern at the head of `s`: the first alternative that matches
gives the match. -/
def matchAt (s : List Char) : Option (List Char) :=
  firstMatch patternAlternatives s

/-- The successive results of `Regex.FindNext()` / `GetCaptureGroup(1)`. `skip` is the
number of characters still inside the previous match; where the pattern does not match,
the search moves on by one character. -/
def tokenizeFrom : Nat → List Char → List FString
  | _, [] => []
  | skip + 1, _ :: cs => tokenizeFrom skip cs
  | 0, c :: cs =>
    match matchAt (c :: cs) with
    | some tok => tok :: tokenizeFrom (tok.length - 1) cs
    | none => tokenizeFrom 0 cs

/-- All matches of the pattern in `Expression`, in order. -/
def tokenize (Expression : FString) : List FString :=
  tokenizeFrom 0 Expression

/-! ## ParseOperator and ParseOperand -/

/-- `FString::operator==` against a literal, and `FString::Compare` with
`ESearchCase::IgnoreCase` compared to zero: equality that ignores letter case. -/
def equalsIgnoreCase (a : FString) (lit : String) : Bool :=
  a.map Char.toLower == lit.toList.map Char.toLower

/-- `FSUDSExpression::ParseOperator`. -/
def ParseOperator (OpStr : FString) : ESUDSExpressionItemType :=
  if equalsIgnoreCase OpStr "+" then .Add
  else if equalsIgnoreCase OpStr "-" then .Subtract
  else if equalsIgnoreCase OpStr "*" then .Multiply
  else if equalsIgnoreCase OpStr "/" then .Divide
  else if equalsIgnoreCase OpStr "and" || equalsIgnoreCase OpStr "&&" then .And
  else if equalsIgnoreCase OpStr "or" || equalsIgnoreCase OpStr "||" then .Or
  else if equalsIgnoreCase OpStr "not" || equalsIgnoreCase OpStr "!" then .Not
  else if equalsIgnoreCase OpStr "==" || equalsIgnoreCase OpStr "=" then .Equal
  else if equalsIgnoreCase OpStr ">=" then .GreaterEqual
  else if equalsIgnoreCase OpStr ">" then .Greater
  else if equalsIgnoreCase OpStr "<=" then .LessEqual
  else if equalsIgnoreCase OpStr "<" then .Less
  else if equalsIgnoreCase OpStr "<>" || equalsIgnoreCase OpStr "!=" then .NotEqual
  else if equalsIgnoreCase OpStr "(" then .LParens
  else if equalsIgnoreCase OpStr ")" then .RParens
  else .Null

/-- A line terminator of the regular expression engine. -/
def isLineTerminator (c : Char) : Bool :=
  c.toNat == 0x0a || c.toNat == 0x0b || c.toNat == 0x0c || c.toNat == 0x0d ||
  c.toNat == 0x85 || c.toNat == 0x2028 || c.toNat == 0x2029

/-- The anchor `$` seen from what is left of the input: the end of the input, or just
before a line terminator that ends the input. -/
def atEndAnchor : List Char → Bool
  | [] => true
  | [c] => isLineTerminator c
  | [c, d] => c.toNat == 0x0d && d.toNat == 0x0a
  | _ => false

/-- The capture group of `^OPEN([^CLOSE]*)CLOSE$` on `s`, for the two delimited operand
patterns of `ParseOperand`. -/
def matchDelimited (opening closing : Char) : List Char → Option (List Char)
  | [] => none
  | c :: cs =>
    if c == opening then
      match cs.dropWhile (fun x => x != closing) with
      | [] => none
      | _ :: rest =>
        if atEndAnchor rest then some (cs.takeWhile (fun x => x != closing)) else none
    else none

/-- The blocks of `ParseOperand` ahead of "Try Numbers": the boolean keywords, the gender
keywords, quoted text and the variable name, in that order; `none` when none of them
returns. -/
def parseNamedOperand (ValueStr : FString) : Option FSUDSValue :=
  if equalsIgnoreCase ValueStr "true" then some (.Boolean true)
  else if equalsIgnoreCase ValueStr "false" then some (.Boolean false)
  else if equalsIgnoreCase ValueStr "masculine" then some (.Gender .Masculine)
  else if equalsIgnoreCase ValueStr "feminine" then some (.Gender .Feminine)
  else if equalsIgnoreCase ValueStr "neuter" then some (.Gender .Neuter)
  else
    match matchDelimited '\"' '\"' ValueStr with
    | some Val => some (.Text Val)
    | none =>
      match matchDelimited '\x7b' '\x7d' ValueStr with
      | some VariableName => some (.VariableName VariableName)
      | none => none

/-- `FSUDSExpression::ParseOperand`; `none` when it returns false, else `OutVal`. -/
def ParseOperand (X : Externals) (ValueStr : FString) : Option FSUDSValue :=
  match parseNamedOperand ValueStr with
  | some OutVal => some OutVal
  | none =>
    match X.ParseInt ValueStr with
    | some IntVal => some (.Int32 IntVal)
    | none =>
      match X.ParseFloat ValueStr with
      | some FloatVal => some (.Float32 FloatVal)
      | none => none

/-! ## ParseFromString -/

/-- An `FSUDSExpression`: the compiled queue and the validity flag. -/
structure FSUDSExpression where
  bIsValid : Bool
  Queue : List FSUDSExpressionItem
  deriving DecidableEq, Repr

/-- The locals of `ParseFromString` together with the queue under construction. -/
structure ParseState where
  Queue : List FSUDSExpressionItem
  OperatorStack : List ESUDSExpressionItemType
  bParsedSomething : Bool
  bErrors : Bool
  deriving DecidableEq, Repr

/-- The loop of the right parenthesis branch: while the stack is not empty and its top is
not `LParens`, pop the top to the queue. Gives the stack and the queue after the loop. -/
def popToLParens (X : Externals) :
    List ESUDSExpressionItemType → List FSUDSExpressionItem →
      List ESUDSExpressionItemType × List FSUDSExpressionItem
  | [], Queue => ([], Queue)
  | Top :: Stack, Queue =>
    if Top != .LParens then popToLParens X Stack (Queue ++ [X.operatorItem Top])
    else (Top :: Stack, Queue)

/-- The condition of the loop of the operator branch, for a stack top `Top`. -/
def appliesBefore (X : Externals) (Top OpType : ESUDSExpressionItemType)
    (bLeftAssociative : Bool) : Bool :=
  decide (X.itemCode Top < X.itemCode OpType) ||
    (decide (X.itemCode Top ≤ X.itemCode OpType) && bLeftAssociative)

/-- The loop of the operator branch: while the stack is not empty and its top applies
before `OpType`, pop the top to the queue. -/
def popApplied (X : Externals) (OpType : ESUDSExpressionItemType) (bLeftAssociative : Bool) :
    List ESUDSExpressionItemType → List FSUDSExpressionItem →
      List ESUDSExpressionItemType × List FSUDSExpressionItem
  | [], Queue => ([], Queue)
  | Top :: Stack, Queue =>
    if appliesBefore X Top OpType bLeftAssociative then
      popApplied X OpType bLeftAssociative Stack (Queue ++ [X.operatorItem Top])
    else (Top :: Stack, Queue)

/-- The body of the token loop for the match `Str`. The second component is false when
the body leaves the loop through `break`. -/
def processToken (X : Externals) (st : ParseState) (Str : FString) : ParseState × Bool :=
  let OpType := ParseOperator Str
  if OpType != .Null then
    if OpType == .LParens then
      ({ st with bParsedSomething := true, OperatorStack := OpType :: st.OperatorStack }, true)
    else if OpType == .RParens then
      if st.OperatorStack.isEmpty then
        ({ st with bParsedSomething := true, bErrors := true }, false)
      else
        match popToLParens X st.OperatorStack st.Queue with
        | ([], Queue) =>
          ({ Queue := Queue, OperatorStack := [], bParsedSomething := true, bErrors := true },
            false)
        | (_ :: Stack, Queue) =>
          ({ st with bParsedSomething := true, Queue := Queue, OperatorStack := Stack }, true)
    else
      let bLeftAssociative := OpType != .Not
      match popApplied X OpType bLeftAssociative st.OperatorStack st.Queue with
      | (Stack, Queue) =>
        ({ st with bParsedSomething := true, Queue := Queue, OperatorStack := OpType :: Stack },
          true)
  else
    match ParseOperand X Str with
    | some Operand =>
      ({ st with bParsedSomething := true, Queue := st.Queue ++ [operandItem Operand] }, true)
    | none => ({ st with bErrors := true }, true)

/-- The loop `while (Regex.FindNext())` over the matches of the pattern. -/
def parseTokens (X : Externals) : ParseState → List FString → ParseState
  | st, [] => st
  | st, Str :: rest =>
    match processToken X st Str with
    | (st1, true) => parseTokens X st1 rest
    | (st1, false) => st1

/-- The loop under "finish up": pop what is left on the operator stack to the queue,
stopping with an error at a parenthesis. -/
def finishUp (X : Externals) : ParseState → List ESUDSExpressionItemType → ParseState
  | st, [] => { st with OperatorStack := [] }
  | st, Top :: Stack =>
    if Top == .LParens || Top == .RParens then
      { st with OperatorStack := Top :: Stack, bErrors := true }
    else finishUp X { st with Queue := st.Queue ++ [X.operatorItem Top] } Stack

/-- The state of `ParseFromString` before the first match. -/
def initialParseState : ParseState :=
  { Queue := [], OperatorStack := [], bParsedSomething := false, bErrors := false }

/-- `ParseFromString` on the matches of the pattern. -/
def compileTokens (X : Externals) (Tokens : List FString) : FSUDSExpression :=
  let st := parseTokens X initialParseState Tokens
  let fin := finishUp X st st.OperatorStack
  { bIsValid := fin.bParsedSomething && !fin.bErrors, Queue := fin.Queue }

/-- `FSUDSExpression::ParseFromString`: the expression it leaves behind; its return value
is the field `bIsValid`. -/
def ParseFromString (X : Externals) (Expression : FString) : FSUDSExpression :=
  compileTokens X (tokenize Expression)

/-! ## Evaluate -/

/-- `FSUDSExpression::EvaluateOperand`. -/
def EvaluateOperand (Operand : FSUDSValue) (Variables : FName → Option FSUDSValue) :
    FSUDSValue :=
  match Operand with
  | .VariableName Name =>
    match Variables Name with
    | some Var => Var
    | none => Operand
  | _ => Operand

/-- `FSUDSExpression::EvaluateOperator`. -/
def EvaluateOperator (X : Externals) (Op : ESUDSExpressionItemType)
    (Arg1 Arg2 : FSUDSExpressionItem) (Variables : FName → Option FSUDSValue) :
    FSUDSExpressionItem :=
  let Val1 := EvaluateOperand Arg1.OperandValue Variables
  let Val2 :=
    if Arg1.IsBinaryOperator then EvaluateOperand Arg2.OperandValue Variables
    else X.DefaultValue
  match Op with
  | .Not => operandItem (X.opNot Val1)
  | .Multiply => operandItem (X.opMultiply Val1 Val2)
  | .Divide => operandItem (X.opDivide Val1 Val2)
  | .Add => operandItem (X.opAdd Val1 Val2)
  | .Subtract => operandItem (X.opSubtract Val1 Val2)
  | .Less => operandItem (X.opLess Val1 Val2)
  | .LessEqual => operandItem (X.opLessEqual Val1 Val2)
  | .Greater => operandItem (X.opGreater Val1 Val2)
  | .GreaterEqual => operandItem (X.opGreaterEqual Val1 Val2)
  | .Equal => operandItem (X.opEqual Val1 Val2)
  | .NotEqual => operandItem (X.opNotEqual Val1 Val2)
  | .And => operandItem (X.opAnd Val1 Val2)
  | .Or => operandItem (X.opOr Val1 Val2)
  | .Null => X.defaultItem
  | .Operand => X.defaultItem
  | .LParens => X.defaultItem
  | .RParens => X.defaultItem

/-- The body of the loop of `Evaluate` for one queue item; `none` when a `Pop` finds the
stack empty. -/
def evalItem (X : Externals) (Variables : FName → Option FSUDSValue)
    (EvalStack : List FSUDSExpressionItem) (Item : FSUDSExpressionItem) :
    Option (List FSUDSExpressionItem) :=
  if Item.IsOperator then
    match EvalStack with
    | [] => none
    | Arg1 :: Stack1 =>
      if Item.IsBinaryOperator then
        match Stack1 with
        | [] => none
        | Arg2 :: Stack2 =>
          some (EvaluateOperator X Item.ItemType Arg1 Arg2 Variables :: Stack2)
      else some (EvaluateOperator X Item.ItemType Arg1 X.defaultItem Variables :: Stack1)
  else some (Item :: EvalStack)

/-- The loop of `Evaluate` over the queue. -/
def evalQueue (X : Externals) (Variables : FName → Option FSUDSValue) :
    List FSUDSExpressionItem → List FSUDSExpressionItem → Option (List FSUDSExpressionItem)
  | EvalStack, [] => some EvalStack
  | EvalStack, Item :: Queue =>
    match evalItem X Variables EvalStack Item with
    | some Stack1 => evalQueue X Variables Stack1 Queue
    | none => none

/-- `FSUDSExpression::Evaluate`; `none` when a `checkf` fails or a `Pop` finds the stack
empty. -/
def Evaluate (X : Externals) (Expr : FSUDSExpression)
    (Variables : FName → Option FSUDSValue) : Option FSUDSValue :=
  if Expr.bIsValid then
    match evalQueue X Variables [] Expr.Queue with
    | some [Top] => some (EvaluateOperand Top.OperandValue Variables)
    | _ => none
  else none

/-! ## One way to fill in the external declarations -/

/-- A decimal reading of a string of ASCII digits; `none` for any other string. -/
def decimalDigits (s : FString) : Option Int :=
  if s.all Char.isDigit && !s.isEmpty then
    some (s.foldl (fun n c => 10 * n + ((c.toNat - 48 : Nat) : Int)) 0)
  else none

/-- Integer arithmetic on two Int32 values; an empty text for any other pair. -/
def onIntegers (f : Int → Int → Int) : FSUDSValue → FSUDSValue → FSUDSValue
  | .Int32 a, .Int32 b => .Int32 (f a b)
  | _, _ => .Text []

/-- An integer comparison on two Int32 values; an empty text for any other pair. -/
def compareIntegers (f : Int → Int → Bool) : FSUDSValue → FSUDSValue → FSUDSValue
  | .Int32 a, .Int32 b => .Boolean (f a b)
  | _, _ => .Text []

/-- A connective on two Boolean values; an empty text for any other pair. -/
def onBooleans (f : Bool → Bool → Bool) : FSUDSValue → FSUDSValue → FSUDSValue
  | .Boolean a, .Boolean b => .Boolean (f a b)
  | _, _ => .Text []

/-- Item type values that put the operators in precedence order ahead of the
parentheses. -/
def sampleItemCode : ESUDSExpressionItemType → Nat
  | .Null => 0
  | .Not => 1
  | .Multiply => 2
  | .Divide => 3
  | .Add => 4
  | .Subtract => 5
  | .Less => 6
  | .LessEqual => 7
  | .Greater => 8
  | .GreaterEqual => 9
  | .Equal => 10
  | .NotEqual => 11
  | .And => 12
  | .Or => 13
  | .LParens => 100
  | .RParens => 101
  | .Operand => 200

/-- A concrete `Externals`: the item type values of `sampleItemCode`, decimal integer
literals, no float literals, an empty text as default value, and operators on integers and
booleans. The statements below hold for every `Externals`; this one shows that what they
assume of it can be met. -/
def sampleExternals : Externals where
  itemCode := sampleItemCode
  ParseInt := decimalDigits
  ParseFloat := fun _ => none
  DefaultValue := .Text []
  opNot := fun v => match v with
    | .Boolean b => .Boolean (!b)
    | _ => .Text []
  opMultiply := onIntegers (fun a b => a * b)
  opDivide := onIntegers (fun a b => a / b)
  opAdd := onIntegers (fun a b => a + b)
  opSubtract := onIntegers (fun a b => a - b)
  opLess := compareIntegers (fun a b => decide (a < b))
  opLessEqual := compareIntegers (fun a b => decide (a ≤ b))
  opGreater := compareIntegers (fun a b => decide (a > b))
  opGreaterEqual := compareIntegers (fun a b => decide (a ≥ b))
  opEqual := fun a b => .Boolean (decide (a = b))
  opNotEqual := fun a b => .Boolean (decide (a ≠ b))
  opAnd := onBooleans (fun a b => a && b)
  opOr := onBooleans (fun a b => a || b)

/-- An environment with no variable. -/
def noVariables : FName → Option FSUDSValue :=
  fun _ => none

/-- An environment that binds the one variable `Name` to `Value`. -/
def bindVariable (Name : FName) (Value : FSUDSValue) : FName → Option FSUDSValue :=
  fun n => if n = Name then some Value else none

/-! ## Parentheses of a token sequence -/

/-- The number of parentheses left open by the matches `Tokens`, read from left to right
with `depth` of them open at the start; `none` when a closing parenthesis comes while
none is open. -/
def openParens : Nat → List FString → Option Nat
  | depth, [] => some depth
  | depth, Str :: rest =>
    if Str = ['('] then openParens (depth + 1) rest
    else if Str = [')'] then
      match depth with
      | 0 => none
      | d + 1 => openParens d rest
    else openParens depth rest

/-- The parentheses among `Tokens` are balanced: every closing one has an opening one
before it, and none is left open. -/
def parenthesesBalanced (Tokens : List FString) : Bool :=
  openParens 0 Tokens == some 0

/-- The assumption on SUDSExpression.h that `LParens` is declared with a larger value than
every operator, so that the loop of the operator branch stops at a left parenthesis. -/
def ParensAfterOperators (X : Externals) : Prop :=
  ∀ t : ESUDSExpressionItemType, t.IsOperator = true → t ≠ .LParens → t ≠ .RParens →
    X.itemCode t < X.itemCode .LParens

/-! ## Parentheses in the compiled queue -/

/-- No item of the queue is a parenthesis. -/
def NoParens (Queue : List FSUDSExpressionItem) : Prop :=
  ∀ Item ∈ Queue, Item.ItemType ≠ .LParens ∧ Item.ItemType ≠ .RParens

/-! ## Operand tokens and precedence classes -/

/-- The match `Str` is an operand token of value `v`: `ParseOperator` gives Null for it
and `ParseOperand` reads `v` from it. -/
def IsOperandToken (X : Externals) (Str : FString) (v : FSUDSValue) : Prop :=
  ParseOperator Str = .Null ∧ ParseOperand X Str = some v

/-- The precedence classes as the spec orders them, lowest to highest: Or, And, the six
comparisons, additive, multiplicative, Not; zero for what is not one of these
operators. -/
def precedenceClass : ESUDSExpressionItemType → Nat
  | .Or => 1
  | .And => 2
  | .Equal => 3
  | .NotEqual => 3
  | .Less => 3
  | .LessEqual => 3
  | .Greater => 3
  | .GreaterEqual => 3
  | .Add => 4
  | .Subtract => 4
  | .Multiply => 5
  | .Divide => 5
  | .Not => 6
  | _ => 0

/-- The assumption on SUDSExpression.h that the operators are declared in order of
precedence: an operator of a higher class has a smaller value than one of a lower
class. -/
def DeclaredByPrecedence (X : Externals) : Prop :=
  ∀ p q : ESUDSExpressionItemType, 0 < precedenceClass p →
    precedenceClass p < precedenceClass q → X.itemCode q < X.itemCode p

/-! ## Variable references in source text -/

/-- A name that the tokenizer pattern accepts between braces: one or more word
characters. -/
def IsVariableWord (a : List Char) : Prop :=
  a ≠ [] ∧ ∀ c ∈ a, isWordChar c = true

/-- The source text of a reference to the variable `a`: the name between braces. -/
def variableRef (a : List Char) : FString :=
  '\x7b' :: a ++ ['\x7d']

/-! ## The operator spellings of the spec -/

/-- The operator spellings as the spec lists them, each with its operator. -/
def operatorSpellings : List (String × ESUDSExpressionItemType) :=
  [("and", .And), ("&&", .And), ("or", .Or), ("||", .Or), ("not", .Not), ("!", .Not),
   ("==", .Equal), ("=", .Equal), ("!=", .NotEqual), ("<>", .NotEqual),
   ("<", .Less), ("<=", .LessEqual), (">", .Greater), (">=", .GreaterEqual),
   ("+", .Add), ("-", .Subtract), ("*", .Multiply), ("/", .Divide),
   ("(", .LParens), (")", .RParens)]

/-- The operator that `Str` spells, letter for letter; Null when `Str` is none of the
spellings. -/
def operatorOfSpelling (Str : FString) : ESUDSExpressionItemType :=
  match operatorSpellings.find? (fun entry => entry.1.toList == Str) with
  | some entry => entry.2
  | none => .Null

/-- The text `Str` with its ASCII capital letters replaced by small ones. -/
def lowerCase (Str : FString) : FString :=
  Str.map Char.toLower

/-! ## Delimited operands -/

/-- The text `Str` is `opening`, then `body` in which `closing` does not occur, then
`closing`, and after it nothing but, possibly, the line terminator that ends the
input. -/
def IsDelimited (opening closing : Char) (Str body : FString) : Prop :=
  ∃ tail, Str = opening :: body ++ closing :: tail ∧ closing ∉ body ∧
    atEndAnchor tail = true

/-- The text `Str` is wholly delimited: it begins with `opening`, ends with `closing`,
and these are two different characters of it. -/
def whollyDelimited (opening closing : Char) (Str : FString) : Bool :=
  decide (2 ≤ Str.length) && Str.head? == some opening && Str.getLast? == some closing

/-- The keywords that `ParseOperand` reads as boolean and gender values. -/
def operandKeywords : List FString :=
  ["true".toList, "false".toList, "masculine".toList, "feminine".toList, "neuter".toList]

/-! ## The script graph (SUDSScript.cpp)

Node objects are kept by address in `Objects`; the node lists hold addresses, and so do
the edges (`none` for a null target). `TArray::operator[]` with an index outside the array
is a fault. `FinishImport` contains a loop that need not end, so it takes the number of
steps each lookahead walk may make and returns `none` when that is not enough. -/

/-- Modelled from the spec: `ESUDSScriptNodeType` (declared in SUDSScriptNode.h), the node
variants Text, Choice, SetVariable, Select and Gosub. -/
inductive ESUDSScriptNodeType
  | Text
  | Choice
  | Select
  | SetVariable
  | Gosub
  deriving DecidableEq, Repr

/-- Modelled from the spec: an edge of a node (SUDSScriptNode.h), by the address of its
target node; `none` when `GetTargetNode().Get()` is null. -/
structure FSUDSScriptEdge where
  TargetNode : Option Nat
  deriving DecidableEq, Repr

/-- Modelled from the spec: a node object (SUDSScriptNode.h, SUDSScriptNodeText.h): its
type, its outgoing edges in order, and the "has choices" flag that a Text node carries. -/
structure USUDSScriptNode where
  NodeType : ESUDSScriptNodeType
  Edges : List FSUDSScriptEdge
  bHasChoices : Bool
  deriving DecidableEq, Repr

/-- A `USUDSScript`: the node objects by address, and the members that `StartImport` hands
out: node list, header node list, the two label tables and the speaker list. -/
structure USUDSScript where
  Objects : Nat → USUDSScriptNode
  Nodes : List Nat
  HeaderNodes : List Nat
  LabelList : FName → Option Int
  HeaderLabelList : FName → Option Int
  Speakers : List FString

/-- `USUDSScript::GetNextNode`; `none` is the null pointer. -/
def GetNextNode (S : USUDSScript) (Node : Nat) : Option Nat :=
  match (S.Objects Node).Edges with
  | [] => none
  | [Edge] => Edge.TargetNode
  | _ :: _ :: _ => none

/-- Modelled from the spec: `USUDSScriptNodeText::NotifyHasChoices` (SUDSScriptNodeText.h),
which sets the "has choices" flag of the node. -/
def NotifyHasChoices (S : USUDSScript) (Node : Nat) : USUDSScript :=
  { S with
    Objects := fun n =>
      if n = Node then { S.Objects n with bHasChoices := true } else S.Objects n }

/-- The loop `while (NextNode && NextNode->GetNodeType() == SetVariable)` of
`FinishImport`, allowed `fuel` iterations: the value of `NextNode` after the loop, or
`none` when the loop has not ended by then. -/
def skipSetVariables (S : USUDSScript) : Nat → Option Nat → Option (Option Nat)
  | 0, NextNode =>
    match NextNode with
    | none => some none
    | some n => if (S.Objects n).NodeType = .SetVariable then none else some (some n)
  | fuel + 1, NextNode =>
    match NextNode with
    | none => some none
    | some n =>
      if (S.Objects n).NodeType = .SetVariable then
        skipSetVariables S fuel (GetNextNode S n)
      else some (some n)

/-- The body of the loop `for (auto Node : Nodes)` of `FinishImport`. -/
def finishImportNode (fuel : Nat) (S : USUDSScript) (Node : Nat) : Option USUDSScript :=
  if (S.Objects Node).NodeType = .Text then
    match skipSetVariables S fuel (GetNextNode S Node) with
    | none => none
    | some none => some S
    | some (some n) =>
      if (S.Objects n).NodeType = .Choice then some (NotifyHasChoices S Node) else some S
  else some S

/-- The loop `for (auto Node : Nodes)` of `FinishImport` over the addresses still to
visit. -/
def finishImportLoop (fuel : Nat) : USUDSScript → List Nat → Option USUDSScript
  | S, [] => some S
  | S, Node :: rest =>
    match finishImportNode fuel S Node with
    | some S1 => finishImportLoop fuel S1 rest
    | none => none

/-- `USUDSScript::FinishImport`, each lookahead walk allowed `fuel` iterations; `none` when
one of them has not ended by then. -/
def FinishImport (fuel : Nat) (S : USUDSScript) : Option USUDSScript :=
  finishImportLoop fuel S S.Nodes

/-- `USUDSScript::GetNodeByLabel`. The outer `none` is the fault of indexing `Nodes`
outside its bounds; inside, `none` is the null pointer it returns for an unknown label. -/
def GetNodeByLabel (S : USUDSScript) (Label : FName) : Option (Option Nat) :=
  match S.LabelList Label with
  | some Idx =>
    if 0 ≤ Idx ∧ Idx < S.Nodes.length then
      match S.Nodes[Idx.toNat]? with
      | some Node => some (some Node)
      | none => none
    else none
  | none => some none

/-- The walk of the spec: going forward from `Node` along single outgoing edges and
skipping only SetVariable nodes, the first other node reached is a Choice node. -/
inductive LeadsToChoice (S : USUDSScript) : Nat → Prop
  | direct (Node Next : Nat) :
      (S.Objects Node).Edges = [⟨some Next⟩] → (S.Objects Next).NodeType = .Choice →
      LeadsToChoice S Node
  | skip (Node Next : Nat) :
      (S.Objects Node).Edges = [⟨some Next⟩] → (S.Objects Next).NodeType = .SetVariable →
      LeadsToChoice S Next → LeadsToChoice S Node

/-- The walk seen from the node it stands on: that node is a Choice node, or it is a
SetVariable node and the walk goes on from its next node to a Choice node. -/
inductive EndsAtChoice (S : USUDSScript) : Option Nat → Prop
  | here (n : Nat) : (S.Objects n).NodeType = .Choice → EndsAtChoice S (some n)
  | skip (n : Nat) : (S.Objects n).NodeType = .SetVariable →
      EndsAtChoice S (GetNextNode S n) → EndsAtChoice S (some n)

/-- Two scripts with the same node list whose node objects have the same types and
edges. -/
def SameGraph (S T : USUDSScript) : Prop :=
  T.Nodes = S.Nodes ∧
    ∀ n, (T.Objects n).NodeType = (S.Objects n).NodeType ∧
      (T.Objects n).Edges = (S.Objects n).Edges

/-- A node object with the given type and edge targets, its flag unset. -/
def plainNode (NodeType : ESUDSScriptNodeType) (Targets : List Nat) : USUDSScriptNode :=
  { NodeType := NodeType, Edges := Targets.map (fun t => ⟨some t⟩), bHasChoices := false }

/-- Modelled from the spec: the body of the test script `SetVariableRunnerInput` as a
graph (the importer that builds it is not under src/). Address 0 is "Player: Hello",
1 is [set SomeInt 99], 2 is "NPC: Wotcha", 3 is [set SomeGender masculine], 4 is the choice
node with its two options, 5 is [set SomeBoolean True], 6 is "NPC: Truth", 7 is
"NPC: Surprise", 8 and 9 are the two set nodes after it, 10 is "Player: Well". -/
def setVariableRunnerScript : USUDSScript where
  Objects := fun n =>
    match n with
    | 0 => plainNode .Text [1]
    | 1 => plainNode .SetVariable [2]
    | 2 => plainNode .Text [3]
    | 3 => plainNode .SetVariable [4]
    | 4 => plainNode .Choice [5, 7]
    | 5 => plainNode .SetVariable [6]
    | 6 => plainNode .Text [10]
    | 7 => plainNode .Text [8]
    | 8 => plainNode .SetVariable [9]
    | 9 => plainNode .SetVariable [10]
    | _ => plainNode .Text []
  Nodes := [0, 1, 2, 3, 4, 5, 6, 7, 8, 9, 10]
  HeaderNodes := []
  LabelList := fun _ => none
  HeaderLabelList := fun _ => none
  Speakers := ["Player".toList, "NPC".toList]

/-- A script of one Text node without edges whose flag is already set. -/
def flaggedTextScript : USUDSScript where
  Objects := fun _ => { NodeType := .Text, Edges := [], bHasChoices := true }
  Nodes := [0]
  HeaderNodes := []
  LabelList := fun _ => none
  HeaderLabelList := fun _ => none
  Speakers := []

/-- A script of one node whose label table maps the label "start" to the index 0 and the
label "back" to the index -1. -/
def negativeLabelScript : USUDSScript where
  Objects := fun _ => plainNode .Text []
  Nodes := [0]
  HeaderNodes := []
  LabelList := fun Label =>
    if Label = "start".toList then some 0
    else if Label = "back".toList then some (-1)
    else none
  HeaderLabelList := fun _ => none
  Speakers := []

/-! ## Operands of tokens and of the queue -/

/-- The values of the operand tokens among `Tokens`, in order: the matches for which
`ParseOperator` gives Null and `ParseOperand` succeeds. -/
def operandValues (X : Externals) : List FString → List FSUDSValue
  | [] => []
  | Str :: rest =>
    if ParseOperator Str = .Null then
      match ParseOperand X Str with
      | some v => v :: operandValues X rest
      | none => operandValues X rest
    else operandValues X rest

/-- The operand items of a queue, in order. -/
def operandItems (Queue : List FSUDSExpressionItem) : List FSUDSExpressionItem :=
  Queue.filter (fun Item => Item.ItemType == .Operand)

/-! ## Walks over SetVariable nodes -/

/-- A single-edge step of the graph: `n` has exactly one edge, and it leads to `m`. This is
when `GetNextNode` gives `m` at `n`. -/
def SingleEdgeStep (S : USUDSScript) (n m : Nat) : Prop :=
  (S.Objects n).Edges = [⟨some m⟩]

instance (S : USUDSScript) (n m : Nat) : Decidable (SingleEdgeStep S n m) :=
  inferInstanceAs (Decidable ((S.Objects n).Edges = [⟨some m⟩]))

/-- A single-edge step that leaves a SetVariable node. -/
def SetVariableStep (S : USUDSScript) (n m : Nat) : Prop :=
  (S.Objects n).NodeType = .SetVariable ∧ SingleEdgeStep S n m

/-- The node `v` lies on a cycle made up solely of single-edge SetVariable nodes: leaving
`v` by such steps one comes back to `v`, and every node left on the way is a SetVariable
node. -/
def OnSetVariableCycle (S : USUDSScript) (v : Nat) : Prop :=
  Relation.TransGen (SetVariableStep S) v v

/-- The SetVariable nodes that the loop of `skipSetVariables` stands on, in the order of
the walk, with the same `fuel`: one node for each test of the loop condition that
succeeds. -/
def visitedSetVariables (S : USUDSScript) : Nat → Option Nat → List Nat
  | 0, NextNode =>
    match NextNode with
    | none => []
    | some n => if (S.Objects n).NodeType = .SetVariable then [n] else []
  | fuel + 1, NextNode =>
    match NextNode with
    | none => []
    | some n =>
      if (S.Objects n).NodeType = .SetVariable then
        n :: visitedSetVariables S fuel (GetNextNode S n)
      else []

/-- A script whose graph has a cycle through a Text node: the Text node 0 leads to the
SetVariable node 1, whose edge jumps back to 0. -/
def backJumpScript : USUDSScript where
  Objects := fun n =>
    match n with
    | 0 => plainNode .Text [1]
    | 1 => plainNode .SetVariable [0]
    | _ => plainNode .Choice []
  Nodes := [0, 1]
  HeaderNodes := []
  LabelList := fun _ => none
  HeaderLabelList := fun _ => none
  Speakers := []

/-! ## The token loop, one match at a time -/

theorem parseTokens_nil (X : Externals) (st : ParseState) : parseTokens X st [] = st := rfl

theorem parseTokens_cons (X : Externals) (st : ParseState) (Str : FString)
    (rest : List FString) :
    parseTokens X st (Str :: rest) =
      if (processToken X st Str).2 then parseTokens X (processToken X st Str).1 rest
      else (processToken X st Str).1 := by
  rw [parseTokens]
  rcases h : processToken X st Str with ⟨st1, b⟩
  cases b <;> simp

theorem ParseOperand_int (X : Externals) (Str : FString) (n : Int)
    (hnamed : parseNamedOperand Str = none) (hint : X.ParseInt Str = some n) :
    ParseOperand X Str = some (.Int32 n) := by
  simp [ParseOperand, hnamed, hint]

theorem ParseOperand_named (X : Externals) (Str : FString) (v : FSUDSValue)
    (hnamed : parseNamedOperand Str = some v) :
    ParseOperand X Str = some v := by
  simp [ParseOperand, hnamed]

theorem processToken_operand (X : Externals) (st : ParseState) (Str : FString)
    (v : FSUDSValue) (hop : ParseOperator Str = .Null) (hv : ParseOperand X Str = some v) :
    processToken X st Str =
      ({ st with bParsedSomething := true, Queue := st.Queue ++ [operandItem v] }, true) := by
  simp [processToken, hop, hv]

theorem processToken_unrecognised (X : Externals) (st : ParseState) (Str : FString)
    (hop : ParseOperator Str = .Null) (hv : ParseOperand X Str = none) :
    processToken X st Str = ({ st with bErrors := true }, true) := by
  simp [processToken, hop, hv]

theorem processToken_lparens (X : Externals) (st : ParseState) (Str : FString)
    (hop : ParseOperator Str = .LParens) :
    processToken X st Str =
      ({ st with bParsedSomething := true, OperatorStack := .LParens :: st.OperatorStack },
        true) := by
  simp [processToken, hop]

theorem processToken_operator (X : Externals) (st : ParseState) (Str : FString)
    (op : ESUDSExpressionItemType) (hop : ParseOperator Str = op)
    (h0 : op ≠ .Null) (h1 : op ≠ .LParens) (h2 : op ≠ .RParens) :
    processToken X st Str =
      ({ st with
          bParsedSomething := true,
          Queue := (popApplied X op (op != .Not) st.OperatorStack st.Queue).2,
          OperatorStack := op :: (popApplied X op (op != .Not) st.OperatorStack st.Queue).1 },
        true) := by
  simp [processToken, hop, h0, h1, h2]

theorem processToken_rparens (X : Externals) (st : ParseState) (Str : FString)
    (hop : ParseOperator Str = .RParens) :
    processToken X st Str =
      match popToLParens X st.OperatorStack st.Queue with
      | ([], Queue) =>
        ({ Queue := Queue, OperatorStack := [], bParsedSomething := true, bErrors := true },
          false)
      | (_ :: Stack, Queue) =>
        ({ st with bParsedSomething := true, Queue := Queue, OperatorStack := Stack },
          true) := by
  rcases st with ⟨q, stk, p, e⟩
  cases stk with
  | nil => simp [processToken, hop, popToLParens]
  | cons t ts => simp [processToken, hop]

/-! ## Parenthesis tokens and the operator stack -/

theorem toLower_eq_of_not_lower (c d : Char) (hd : ¬ (97 ≤ d.toNat ∧ d.toNat ≤ 122))
    (h : c.toLower = d) : c = d := by
  unfold Char.toLower at h
  simp only at h
  split at h
  · rename_i hc
    exfalso
    apply hd
    have hc2 : Char.ofNat c.toNat = c := Char.ofNat_toNat c
    obtain ⟨h1, h2⟩ := hc
    generalize c.toNat = n at *
    subst h
    interval_cases n <;> decide
  · exact h

theorem equalsIgnoreCase_single (Str : FString) (d : Char)
    (hd : ¬ (97 ≤ d.toNat ∧ d.toNat ≤ 122)) (hdl : d.toLower = d)
    (h : equalsIgnoreCase Str (String.singleton d) = true) : Str = [d] := by
  unfold equalsIgnoreCase at h
  have h1 : Str.map Char.toLower = [d] := by
    simpa [String.singleton, hdl] using h
  match Str, h1 with
  | [c], h1 =>
    simp only [List.map_cons, List.map_nil, List.cons.injEq, and_true] at h1
    rw [toLower_eq_of_not_lower c d hd h1]

theorem else_of_ite_eq {α : Type} {c : Prop} [Decidable c] {a b x : α}
    (h : (if c then a else b) = x) (ha : a ≠ x) : b = x := by
  by_cases hc : c
  · rw [if_pos hc] at h
    exact absurd h ha
  · rwa [if_neg hc] at h

theorem cond_of_ite_eq {α : Type} {c : Prop} [Decidable c] {a b x : α}
    (h : (if c then a else b) = x) (hb : b ≠ x) : c := by
  by_cases hc : c
  · exact hc
  · rw [if_neg hc] at h
    exact absurd h hb

theorem ParseOperator_eq_LParens (Str : FString) :
    ParseOperator Str = .LParens ↔ Str = ['('] := by
  constructor
  · intro h
    unfold ParseOperator at h
    iterate 13 replace h := else_of_ite_eq h (by decide)
    have a := cond_of_ite_eq h (fun e => absurd (else_of_ite_eq e (by decide)) (by decide))
    exact equalsIgnoreCase_single Str '(' (by decide) (by decide) a
  · rintro rfl
    decide

theorem ParseOperator_eq_RParens (Str : FString) :
    ParseOperator Str = .RParens ↔ Str = [')'] := by
  constructor
  · intro h
    unfold ParseOperator at h
    iterate 14 replace h := else_of_ite_eq h (by decide)
    have a := cond_of_ite_eq h (by decide)
    exact equalsIgnoreCase_single Str ')' (by decide) (by decide) a
  · rintro rfl
    decide
theorem ParseOperator_ne_Operand (Str : FString) : ParseOperator Str ≠ .Operand := by
  intro h
  unfold ParseOperator at h
  iterate 15 replace h := else_of_ite_eq h (by decide)
  exact absurd h (by decide)

theorem appliesBefore_LParens (X : Externals) (hX : ParensAfterOperators X)
    (op : ESUDSExpressionItemType) (b : Bool) (h0 : op ≠ .Null) (h1 : op ≠ .LParens)
    (h2 : op ≠ .RParens) (h3 : op ≠ .Operand) :
    appliesBefore X .LParens op b = false := by
  have hop : op.IsOperator = true := by
    cases op <;> simp_all [ESUDSExpressionItemType.IsOperator]
  have hlt := hX op hop h1 h2
  simp [appliesBefore, Nat.not_lt_of_gt hlt, Nat.not_le_of_gt hlt]

theorem popApplied_count (X : Externals) (op : ESUDSExpressionItemType) (b : Bool)
    (h : appliesBefore X .LParens op b = false) (Stack : List ESUDSExpressionItemType) :
    ∀ Queue, (popApplied X op b Stack Queue).1.count .LParens = Stack.count .LParens := by
  induction Stack with
  | nil => intro Queue; rfl
  | cons Top Stack ih =>
    intro Queue
    by_cases hc : appliesBefore X Top op b = true
    · have hne : Top ≠ .LParens := by
        rintro rfl
        rw [h] at hc
        exact absurd hc (by decide)
      rw [popApplied, if_pos hc, ih, List.count_cons_of_ne (Ne.symm hne)]
    · rw [popApplied, if_neg hc]

theorem popToLParens_of_count_zero (X : Externals) (Stack : List ESUDSExpressionItemType) :
    ∀ Queue, Stack.count .LParens = 0 → (popToLParens X Stack Queue).1 = [] := by
  induction Stack with
  | nil => intro Queue _; rfl
  | cons Top Stack ih =>
    intro Queue h
    have hne : Top ≠ .LParens := by
      rintro rfl
      simp at h
    rw [List.count_cons_of_ne (Ne.symm hne)] at h
    rw [popToLParens, if_pos (by simpa using hne)]
    exact ih _ h

theorem popToLParens_of_count_succ (X : Externals) (Stack : List ESUDSExpressionItemType) :
    ∀ Queue d, Stack.count .LParens = d + 1 →
      ∃ Rest, (popToLParens X Stack Queue).1 = .LParens :: Rest ∧
        Rest.count .LParens = d := by
  induction Stack with
  | nil => intro Queue d h; simp at h
  | cons Top Stack ih =>
    intro Queue d h
    by_cases hne : Top = .LParens
    · subst hne
      refine ⟨Stack, ?_, ?_⟩
      · simp [popToLParens]
      · simpa using h
    · rw [List.count_cons_of_ne (Ne.symm hne)] at h
      rw [popToLParens, if_pos (by simpa using hne)]
      exact ih _ d h

theorem finishUp_keeps_errors (X : Externals) (Stack : List ESUDSExpressionItemType) :
    ∀ st : ParseState, st.bErrors = true → (finishUp X st Stack).bErrors = true := by
  induction Stack with
  | nil => intro st h; simpa [finishUp] using h
  | cons Top Stack ih =>
    intro st h
    rw [finishUp]
    split
    · rfl
    · exact ih _ h

theorem finishUp_errors_of_LParens (X : Externals) (Stack : List ESUDSExpressionItemType) :
    ∀ st : ParseState, 0 < Stack.count .LParens → (finishUp X st Stack).bErrors = true := by
  induction Stack with
  | nil => intro st h; simp at h
  | cons Top Stack ih =>
    intro st h
    rw [finishUp]
    split
    · rfl
    · rename_i hT
      have hne : Top ≠ .LParens := by
        rintro rfl
        simp at hT
      rw [List.count_cons_of_ne (Ne.symm hne)] at h
      exact ih _ h

theorem parseTokens_unbalanced (X : Externals) (hX : ParensAfterOperators X)
    (Tokens : List FString) :
    ∀ (st : ParseState) (depth : Nat), st.OperatorStack.count .LParens = depth →
      openParens depth Tokens ≠ some 0 →
      (finishUp X (parseTokens X st Tokens) (parseTokens X st Tokens).OperatorStack).bErrors
        = true := by
  induction Tokens with
  | nil =>
    intro st depth hd hopen
    rw [parseTokens_nil]
    apply finishUp_errors_of_LParens
    rw [hd]
    simp only [openParens, ne_eq, Option.some.injEq] at hopen
    omega
  | cons Str rest ih =>
    intro st depth hd hopen
    rw [parseTokens_cons]
    by_cases hL : Str = ['(']
    · rw [processToken_lparens X st Str ((ParseOperator_eq_LParens Str).2 hL)]
      simp only [if_true]
      apply ih _ (depth + 1)
      · simp [hd]
      · simpa [openParens, hL] using hopen
    · by_cases hR : Str = [')']
      · rw [processToken_rparens X st Str ((ParseOperator_eq_RParens Str).2 hR)]
        cases depth with
        | zero =>
          have h0 := popToLParens_of_count_zero X st.OperatorStack st.Queue hd
          rcases hp : popToLParens X st.OperatorStack st.Queue with ⟨Stack, Queue⟩
          rw [hp] at h0
          simp only at h0
          subst h0
          simp only [Bool.false_eq_true, if_false]
          exact finishUp_keeps_errors X _ _ rfl
        | succ d =>
          obtain ⟨Rest, h1, h2⟩ := popToLParens_of_count_succ X st.OperatorStack st.Queue d hd
          rcases hp : popToLParens X st.OperatorStack st.Queue with ⟨Stack, Queue⟩
          rw [hp] at h1
          simp only at h1
          subst h1
          simp only [if_true]
          apply ih _ d h2
          simpa [openParens, hL, hR] using hopen
      · have hopen1 : openParens depth rest ≠ some 0 := by
          simpa [openParens, hL, hR] using hopen
        have hnL : ParseOperator Str ≠ .LParens := fun h =>
          hL ((ParseOperator_eq_LParens Str).1 h)
        have hnR : ParseOperator Str ≠ .RParens := fun h =>
          hR ((ParseOperator_eq_RParens Str).1 h)
        by_cases hN : ParseOperator Str = .Null
        · cases hv : ParseOperand X Str with
          | none =>
            rw [processToken_unrecognised X st Str hN hv]
            simp only [if_true]
            exact ih _ depth hd hopen1
          | some v =>
            rw [processToken_operand X st Str v hN hv]
            simp only [if_true]
            exact ih _ depth hd hopen1
        · rw [processToken_operator X st Str _ rfl hN hnL hnR]
          simp only [if_true]
          apply ih _ depth _ hopen1
          simp only
          rw [List.count_cons_of_ne (Ne.symm hnL), popApplied_count X _ _
            (appliesBefore_LParens X hX _ _ hN hnL hnR (ParseOperator_ne_Operand Str)), hd]

/-! ## The stack discipline of the evaluator -/

theorem evalItem_length (X : Externals) (V W : FName → Option FSUDSValue)
    (Item : FSUDSExpressionItem) (S T : List FSUDSExpressionItem) (h : S.length = T.length) :
    (evalItem X V S Item).map List.length = (evalItem X W T Item).map List.length := by
  unfold evalItem
  by_cases ho : Item.IsOperator = true
  · simp only [ho, if_true]
    match S, T, h with
    | [], [], _ => rfl
    | a :: S1, b :: T1, h =>
      by_cases hb : Item.IsBinaryOperator = true
      · simp only [hb, if_true]
        match S1, T1, h with
        | [], [], _ => rfl
        | _ :: S2, _ :: T2, h =>
          simp only [List.length_cons, Nat.add_right_cancel_iff] at h
          simp [h]
      · simp only [hb]
        simp only [List.length_cons, Nat.add_right_cancel_iff] at h
        simp [h]
  · simp only [ho]
    simp [h]

theorem evalQueue_length (X : Externals) (V W : FName → Option FSUDSValue)
    (Queue : List FSUDSExpressionItem) :
    ∀ S T : List FSUDSExpressionItem, S.length = T.length →
      (evalQueue X V S Queue).map List.length = (evalQueue X W T Queue).map List.length := by
  induction Queue with
  | nil => intro S T h; simp [evalQueue, h]
  | cons Item Queue ih =>
    intro S T h
    have hi := evalItem_length X V W Item S T h
    rw [evalQueue, evalQueue]
    cases hS : evalItem X V S Item with
    | none =>
      cases hT : evalItem X W T Item with
      | none => rfl
      | some T1 => rw [hS, hT] at hi; simp at hi
    | some S1 =>
      cases hT : evalItem X W T Item with
      | none => rw [hS, hT] at hi; simp at hi
      | some T1 =>
        rw [hS, hT] at hi
        simp only [Option.map_some', Option.some.injEq] at hi
        exact ih S1 T1 hi

theorem Evaluate_isSome (X : Externals) (V : FName → Option FSUDSValue)
    (Expr : FSUDSExpression) :
    (Evaluate X Expr V).isSome =
      (Expr.bIsValid && ((evalQueue X V [] Expr.Queue).map List.length == some 1)) := by
  unfold Evaluate
  cases Expr.bIsValid with
  | false => simp
  | true =>
    simp only [if_true, Bool.true_and]
    cases h : evalQueue X V [] Expr.Queue with
    | none => rfl
    | some S =>
      match S with
      | [] => rfl
      | [_] => rfl
      | _ :: _ :: _ => simp

/-! ## Validity does not imply a runnable queue -/

/-- C1: the source "+" is accepted by `ParseFromString` (it returns true) and compiles to
the one-item queue holding the operator Add; running that queue the way `Evaluate` does
pops an empty stack on its first item, so the stack machine faults instead of ending with
one operand. -/
theorem lone_operator_is_valid_and_underflows (X : Externals)
    (Variables : FName → Option FSUDSValue) :
    (ParseFromString X "+".toList).bIsValid = true ∧
    (ParseFromString X "+".toList).Queue = [X.operatorItem .Add] ∧
    evalItem X Variables [] (X.operatorItem .Add) = none ∧
    evalQueue X Variables [] (ParseFromString X "+".toList).Queue = none ∧
    Evaluate X (ParseFromString X "+".toList) Variables = none :=
  ⟨rfl, rfl, rfl, rfl, rfl⟩

/-- C2: the well-formed expression "true" (a boolean literal operand) is rejected by
`ParseFromString`, because the tokenizer pattern has no alternative for the keyword and
finds no match in it; and "true and false" is accepted with only the operator And in its
queue, on which `Evaluate` faults. -/
theorem boolean_literal_expression_is_not_compiled (X : Externals)
    (Variables : FName → Option FSUDSValue) :
    tokenize "true".toList = [] ∧
    ParseFromString X "true".toList = ⟨false, []⟩ ∧
    ParseFromString X "true and false".toList = ⟨true, [X.operatorItem .And]⟩ ∧
    Evaluate X (ParseFromString X "true and false".toList) Variables = none :=
  ⟨rfl, rfl, rfl, rfl⟩

/-! ## What the evaluator computes for a binary operator -/

/-- C3: with the literals 2, 3, 4 read as integers, Multiply declared ahead of Add and Add
ahead of LParens, "2 + 3 * 4" and "(2 + 3) * 4" compile to the expected queues, but
`Evaluate` applies each operator to the item on top of the stack and a default value:
the first gives Add (Multiply 4 default) default, the second Multiply 4 default, and
neither reads the literals 2 and 3. -/
theorem precedence_examples_evaluate_on_top_item_only (X : Externals)
    (Variables : FName → Option FSUDSValue)
    (h2 : X.ParseInt "2".toList = some 2) (h3 : X.ParseInt "3".toList = some 3)
    (h4 : X.ParseInt "4".toList = some 4)
    (hprec : X.itemCode .Multiply < X.itemCode .Add)
    (hpar : X.itemCode .Add < X.itemCode .LParens) :
    ParseFromString X "2 + 3 * 4".toList =
      ⟨true, [operandItem (.Int32 2), operandItem (.Int32 3), operandItem (.Int32 4),
        X.operatorItem .Multiply, X.operatorItem .Add]⟩ ∧
    Evaluate X (ParseFromString X "2 + 3 * 4".toList) Variables =
      some (EvaluateOperand
        (X.opAdd (EvaluateOperand (X.opMultiply (.Int32 4) X.DefaultValue) Variables)
          X.DefaultValue) Variables) ∧
    ParseFromString X "(2 + 3) * 4".toList =
      ⟨true, [operandItem (.Int32 2), operandItem (.Int32 3), X.operatorItem .Add,
        operandItem (.Int32 4), X.operatorItem .Multiply]⟩ ∧
    Evaluate X (ParseFromString X "(2 + 3) * 4".toList) Variables =
      some (EvaluateOperand (X.opMultiply (.Int32 4) X.DefaultValue) Variables) := by
  have p2 := fun st =>
    processToken_operand X st "2".toList _ rfl (ParseOperand_int X _ _ rfl h2)
  have p3 := fun st =>
    processToken_operand X st "3".toList _ rfl (ParseOperand_int X _ _ rfl h3)
  have p4 := fun st =>
    processToken_operand X st "4".toList _ rfl (ParseOperand_int X _ _ rfl h4)
  have pa := fun st =>
    processToken_operator X st "+".toList .Add rfl (by decide) (by decide) (by decide)
  have pm := fun st =>
    processToken_operator X st "*".toList .Multiply rfl (by decide) (by decide) (by decide)
  have pl := fun st => processToken_lparens X st "(".toList rfl
  have pr := fun st => processToken_rparens X st ")".toList rfl
  have hq1 : ParseFromString X "2 + 3 * 4".toList =
      ⟨true, [operandItem (.Int32 2), operandItem (.Int32 3), operandItem (.Int32 4),
        X.operatorItem .Multiply, X.operatorItem .Add]⟩ := by
    have htok : tokenize "2 + 3 * 4".toList =
        ["2".toList, "+".toList, "3".toList, "*".toList, "4".toList] := rfl
    unfold ParseFromString
    rw [htok]
    simp only [compileTokens, parseTokens_cons, parseTokens_nil, p2, p3, p4, pa, pm]
    simp [initialParseState, popApplied, appliesBefore, finishUp, Nat.not_lt_of_gt hprec,
      Nat.not_le_of_gt hprec]
  have hq2 : ParseFromString X "(2 + 3) * 4".toList =
      ⟨true, [operandItem (.Int32 2), operandItem (.Int32 3), X.operatorItem .Add,
        operandItem (.Int32 4), X.operatorItem .Multiply]⟩ := by
    have htok : tokenize "(2 + 3) * 4".toList =
        ["(".toList, "2".toList, "+".toList, "3".toList, ")".toList, "*".toList,
          "4".toList] := rfl
    unfold ParseFromString
    rw [htok]
    simp only [compileTokens, parseTokens_cons, parseTokens_nil, p2, p3, p4, pa, pm, pl, pr]
    simp [initialParseState, popApplied, popToLParens, appliesBefore, finishUp,
      Nat.not_lt_of_gt hpar, Nat.not_le_of_gt hpar]
  refine ⟨hq1, ?_, hq2, ?_⟩
  · rw [hq1]; rfl
  · rw [hq2]; rfl

/-- C3, at one choice of the external declarations. -/
theorem precedence_examples_on_sample :
    Evaluate sampleExternals (ParseFromString sampleExternals "2 + 3 * 4".toList)
        noVariables = some (.Text []) ∧
    Evaluate sampleExternals (ParseFromString sampleExternals "(2 + 3) * 4".toList)
        noVariables = some (.Text []) :=
  have h := precedence_examples_evaluate_on_top_item_only sampleExternals noVariables
    rfl rfl rfl (by decide) (by decide)
  ⟨h.2.1, h.2.2.2⟩

/-- C4: with the literals 10, 3, 2 read as integers, "10 - 3 - 2" compiles to
[10, 3, Subtract, 2, Subtract] (the second Subtract pops the first), but `Evaluate`
returns Subtract 2 default: the last literal minus a default value, whatever the
literals 10 and 3 are. -/
theorem subtraction_chain_evaluates_on_top_item_only (X : Externals)
    (Variables : FName → Option FSUDSValue)
    (h10 : X.ParseInt "10".toList = some 10) (h3 : X.ParseInt "3".toList = some 3)
    (h2 : X.ParseInt "2".toList = some 2) :
    ParseFromString X "10 - 3 - 2".toList =
      ⟨true, [operandItem (.Int32 10), operandItem (.Int32 3), X.operatorItem .Subtract,
        operandItem (.Int32 2), X.operatorItem .Subtract]⟩ ∧
    Evaluate X (ParseFromString X "10 - 3 - 2".toList) Variables =
      some (EvaluateOperand (X.opSubtract (.Int32 2) X.DefaultValue) Variables) := by
  have p10 := fun st =>
    processToken_operand X st "10".toList _ rfl (ParseOperand_int X _ _ rfl h10)
  have p3 := fun st =>
    processToken_operand X st "3".toList _ rfl (ParseOperand_int X _ _ rfl h3)
  have p2 := fun st =>
    processToken_operand X st "2".toList _ rfl (ParseOperand_int X _ _ rfl h2)
  have ps := fun st =>
    processToken_operator X st "-".toList .Subtract rfl (by decide) (by decide) (by decide)
  have hq : ParseFromString X "10 - 3 - 2".toList =
      ⟨true, [operandItem (.Int32 10), operandItem (.Int32 3), X.operatorItem .Subtract,
        operandItem (.Int32 2), X.operatorItem .Subtract]⟩ := by
    have htok : tokenize "10 - 3 - 2".toList =
        ["10".toList, "-".toList, "3".toList, "-".toList, "2".toList] := rfl
    unfold ParseFromString
    rw [htok]
    simp only [compileTokens, parseTokens_cons, parseTokens_nil, p10, p3, p2, ps]
    simp [initialParseState, popApplied, appliesBefore, finishUp]
  refine ⟨hq, ?_⟩
  rw [hq]; rfl

/-- C4, at one choice of the external declarations. -/
theorem subtraction_chain_on_sample :
    Evaluate sampleExternals (ParseFromString sampleExternals "10 - 3 - 2".toList)
      noVariables = some (.Text []) :=
  (subtraction_chain_evaluates_on_top_item_only sampleExternals noVariables
    rfl rfl rfl).2

/-- C5: "not true" is accepted by `ParseFromString`, but the keyword is not matched by the
tokenizer pattern, so the compiled queue holds only the operator Not and `Evaluate`
faults on an empty stack; "not false and true" is accepted as well and faults in the same
way. -/
theorem negated_boolean_literal_faults (X : Externals)
    (Variables : FName → Option FSUDSValue) :
    tokenize "not true".toList = ["not".toList] ∧
    ParseFromString X "not true".toList = ⟨true, [X.operatorItem .Not]⟩ ∧
    Evaluate X (ParseFromString X "not true".toList) Variables = none ∧
    tokenize "not false and true".toList = ["not".toList, "and".toList] ∧
    (ParseFromString X "not false and true".toList).bIsValid = true ∧
    Evaluate X (ParseFromString X "not false and true".toList) Variables = none := by
  refine ⟨rfl, rfl, rfl, rfl, ?_⟩
  have pn := fun st =>
    processToken_operator X st "not".toList .Not rfl (by decide) (by decide) (by decide)
  have pa := fun st =>
    processToken_operator X st "and".toList .And rfl (by decide) (by decide) (by decide)
  have htok : tokenize "not false and true".toList = ["not".toList, "and".toList] := rfl
  unfold ParseFromString
  rw [htok]
  simp only [compileTokens, parseTokens_cons, parseTokens_nil, pn, pa]
  have hb : (ESUDSExpressionItemType.And != ESUDSExpressionItemType.Not) = true := rfl
  cases hc : appliesBefore X .Not .And true <;>
    simp [initialParseState, popApplied, hb, hc, finishUp, Evaluate, evalQueue, evalItem,
      Externals.operatorItem, FSUDSExpressionItem.IsOperator,
      ESUDSExpressionItemType.IsOperator]

/-- C6: with the literal 1 read as an integer, "{x} + 1" compiles to [x, 1, Add], and
under every environment `Evaluate` returns Add 1 default: the variable operand is popped
but never resolved or used, so the result is the same whatever x is bound to. -/
theorem variable_plus_one_ignores_variable (X : Externals)
    (Variables : FName → Option FSUDSValue)
    (h1 : X.ParseInt "1".toList = some 1) :
    ParseFromString X "\x7bx\x7d + 1".toList =
      ⟨true, [operandItem (.VariableName "x".toList), operandItem (.Int32 1),
        X.operatorItem .Add]⟩ ∧
    Evaluate X (ParseFromString X "\x7bx\x7d + 1".toList) Variables =
      some (EvaluateOperand (X.opAdd (.Int32 1) X.DefaultValue) Variables) := by
  have px := fun st =>
    processToken_operand X st "\x7bx\x7d".toList _ rfl (ParseOperand_named X _ _ rfl)
  have p1 := fun st =>
    processToken_operand X st "1".toList _ rfl (ParseOperand_int X _ _ rfl h1)
  have pa := fun st =>
    processToken_operator X st "+".toList .Add rfl (by decide) (by decide) (by decide)
  have hq : ParseFromString X "\x7bx\x7d + 1".toList =
      ⟨true, [operandItem (.VariableName "x".toList), operandItem (.Int32 1),
        X.operatorItem .Add]⟩ := by
    have htok : tokenize "\x7bx\x7d + 1".toList =
        ["\x7bx\x7d".toList, "+".toList, "1".toList] := rfl
    unfold ParseFromString
    rw [htok]
    simp only [compileTokens, parseTokens_cons, parseTokens_nil, px, p1, pa]
    simp [initialParseState, popApplied, finishUp]
  refine ⟨hq, ?_⟩
  rw [hq]; rfl

/-- C6, at one choice of the external declarations, with x bound to 5. -/
theorem variable_plus_one_on_sample :
    Evaluate sampleExternals (ParseFromString sampleExternals "\x7bx\x7d + 1".toList)
      (bindVariable "x".toList (.Int32 5)) = some (.Text []) :=
  (variable_plus_one_ignores_variable sampleExternals
    (bindVariable "x".toList (.Int32 5)) rfl).2

/-- C8: for the queue [l, r, op] with op one of Subtract, Divide, Less, `Evaluate`
resolves only r, the item on top of the stack, and applies op with r as its left-hand
side and a default value as its right-hand side; l is popped and not used. -/
theorem binary_operator_uses_top_item_and_default (X : Externals)
    (Variables : FName → Option FSUDSValue) (l r : FSUDSValue) :
    Evaluate X ⟨true, [operandItem l, operandItem r, X.operatorItem .Subtract]⟩ Variables =
      some (EvaluateOperand
        (X.opSubtract (EvaluateOperand r Variables) X.DefaultValue) Variables) ∧
    Evaluate X ⟨true, [operandItem l, operandItem r, X.operatorItem .Divide]⟩ Variables =
      some (EvaluateOperand
        (X.opDivide (EvaluateOperand r Variables) X.DefaultValue) Variables) ∧
    Evaluate X ⟨true, [operandItem l, operandItem r, X.operatorItem .Less]⟩ Variables =
      some (EvaluateOperand
        (X.opLess (EvaluateOperand r Variables) X.DefaultValue) Variables) :=
  ⟨rfl, rfl, rfl⟩

/-! ## Variables that the environment does not bind -/

/-- C7, amended: an operand whose variable is absent from the environment is left as the
unresolved variable reference (no default value is put in its place), so `Evaluate` on
the one-operand expression of that variable returns a value tagged VariableName; and
whether `Evaluate` completes never depends on the environment, so an absent variable
does not make it abort. -/
theorem absent_variable_is_left_unresolved (X : Externals)
    (Variables : FName → Option FSUDSValue) (Name : FName)
    (habsent : Variables Name = none) :
    EvaluateOperand (.VariableName Name) Variables = .VariableName Name ∧
    Evaluate X ⟨true, [operandItem (.VariableName Name)]⟩ Variables =
      some (.VariableName Name) ∧
    ∀ (Expr : FSUDSExpression) (Other : FName → Option FSUDSValue),
      (Evaluate X Expr Variables).isSome = (Evaluate X Expr Other).isSome := by
  have h1 : EvaluateOperand (.VariableName Name) Variables = .VariableName Name := by
    simp [EvaluateOperand, habsent]
  refine ⟨h1, ?_, ?_⟩
  · show some (EvaluateOperand (.VariableName Name) Variables) = _
    rw [h1]
  · intro Expr Other
    rw [Evaluate_isSome, Evaluate_isSome,
      evalQueue_length X Variables Other Expr.Queue [] [] rfl]

/-- C7, amended, for the variable x and the environment that binds nothing. -/
theorem absent_variable_on_sample :
    EvaluateOperand (.VariableName "x".toList) noVariables = .VariableName "x".toList ∧
    Evaluate sampleExternals ⟨true, [operandItem (.VariableName "x".toList)]⟩ noVariables =
      some (.VariableName "x".toList) :=
  have h := absent_variable_is_left_unresolved sampleExternals noVariables "x".toList rfl
  ⟨h.1, h.2.1⟩

/-- C7 as stated fails: whatever the external declarations are, "{x}" is a valid
expression, and evaluated under the environment that binds nothing it returns the
variable reference x itself, a value tagged VariableName. -/
theorem evaluate_returns_unresolved_reference :
    (∀ X : Externals, (ParseFromString X "\x7bx\x7d".toList).bIsValid = true) ∧
    (∀ X : Externals, Evaluate X (ParseFromString X "\x7bx\x7d".toList) noVariables =
      some (.VariableName "x".toList)) ∧
    FSUDSValue.IsVariable (.VariableName "x".toList) = true :=
  ⟨fun _ => rfl, fun _ => rfl, rfl⟩

/-! ## Mismatched parentheses -/

/-- C9: when `LParens` is declared after every operator, every source string whose
parenthesis tokens are not balanced (one is left open, or one closes with none open) is
rejected: `ParseFromString` returns false. -/
theorem unbalanced_parentheses_are_rejected (X : Externals)
    (hX : ParensAfterOperators X) (Expression : FString)
    (h : parenthesesBalanced (tokenize Expression) = false) :
    (ParseFromString X Expression).bIsValid = false := by
  have hopen : openParens 0 (tokenize Expression) ≠ some 0 := by
    intro e
    simp [parenthesesBalanced, e] at h
  have herr :=
    parseTokens_unbalanced X hX (tokenize Expression) initialParseState 0 rfl hopen
  simp [ParseFromString, compileTokens, herr]

/-- C9 on "(1 + 2" and on "1 + 2)". -/
theorem unbalanced_examples_are_rejected :
    (ParseFromString sampleExternals "(1 + 2".toList).bIsValid = false ∧
    (ParseFromString sampleExternals "1 + 2)".toList).bIsValid = false :=
  ⟨unbalanced_parentheses_are_rejected sampleExternals
      (by intro t; cases t <;> decide) "(1 + 2".toList (by decide),
   unbalanced_parentheses_are_rejected sampleExternals
      (by intro t; cases t <;> decide) "1 + 2)".toList (by decide)⟩

/-! ## Text the tokenizer pattern does not match -/

/-- C10: with the literals 1 and 2 read as integers, "1 + foo" and "1 $ 2" are both
accepted by `ParseFromString`: the pattern matches nothing in "foo" or "$", no token is
produced for them and no error is raised; the compiled queues are [1, Add] and [1, 2]. -/
theorem unmatched_text_is_skipped (X : Externals)
    (h1 : X.ParseInt "1".toList = some 1) (h2 : X.ParseInt "2".toList = some 2) :
    tokenize "1 + foo".toList = ["1".toList, "+".toList] ∧
    ParseFromString X "1 + foo".toList =
      ⟨true, [operandItem (.Int32 1), X.operatorItem .Add]⟩ ∧
    tokenize "1 $ 2".toList = ["1".toList, "2".toList] ∧
    ParseFromString X "1 $ 2".toList =
      ⟨true, [operandItem (.Int32 1), operandItem (.Int32 2)]⟩ := by
  have p1 := fun st =>
    processToken_operand X st "1".toList _ rfl (ParseOperand_int X _ _ rfl h1)
  have p2 := fun st =>
    processToken_operand X st "2".toList _ rfl (ParseOperand_int X _ _ rfl h2)
  have pa := fun st =>
    processToken_operator X st "+".toList .Add rfl (by decide) (by decide) (by decide)
  refine ⟨rfl, ?_, rfl, ?_⟩
  · have htok : tokenize "1 + foo".toList = ["1".toList, "+".toList] := rfl
    unfold ParseFromString
    rw [htok]
    simp only [compileTokens, parseTokens_cons, parseTokens_nil, p1, pa]
    simp [initialParseState, popApplied, finishUp]
  · have htok : tokenize "1 $ 2".toList = ["1".toList, "2".toList] := rfl
    unfold ParseFromString
    rw [htok]
    simp only [compileTokens, parseTokens_cons, parseTokens_nil, p1, p2]
    simp [initialParseState, finishUp]

/-- C10, at one choice of the external declarations. -/
theorem unmatched_text_is_skipped_on_sample :
    (ParseFromString sampleExternals "1 + foo".toList).bIsValid = true ∧
    (ParseFromString sampleExternals "1 $ 2".toList).bIsValid = true :=
  have h := unmatched_text_is_skipped sampleExternals rfl rfl
  ⟨congrArg FSUDSExpression.bIsValid h.2.1, congrArg FSUDSExpression.bIsValid h.2.2.2⟩

/-! ## Input without tokens -/

/-- C11: on every source string in which the tokenizer pattern finds no match, the empty
string among them, `ParseFromString` returns false, the expression is invalid and its
queue is empty. -/
theorem no_token_gives_invalid_empty_expression (X : Externals) (Expression : FString)
    (h : tokenize Expression = []) :
    (ParseFromString X Expression).bIsValid = false ∧
    (ParseFromString X Expression).Queue = [] := by
  unfold ParseFromString
  rw [h]
  exact ⟨rfl, rfl⟩

/-- C11 on the empty string and on a string of unmatched text. -/
theorem no_token_examples :
    ((ParseFromString sampleExternals []).bIsValid = false ∧
      (ParseFromString sampleExternals []).Queue = []) ∧
    ((ParseFromString sampleExternals "  foo ? ".toList).bIsValid = false ∧
      (ParseFromString sampleExternals "  foo ? ".toList).Queue = []) :=
  ⟨no_token_gives_invalid_empty_expression sampleExternals [] rfl,
   no_token_gives_invalid_empty_expression sampleExternals "  foo ? ".toList (by decide)⟩

/-! ## No parenthesis reaches the queue -/

theorem NoParens_append_operator (X : Externals) (Queue : List FSUDSExpressionItem)
    (t : ESUDSExpressionItemType) (hq : NoParens Queue) (h1 : t ≠ .LParens)
    (h2 : t ≠ .RParens) : NoParens (Queue ++ [X.operatorItem t]) := by
  intro Item hmem
  rcases List.mem_append.1 hmem with h | h
  · exact hq Item h
  · rw [List.mem_singleton] at h
    subst h
    exact ⟨h1, h2⟩

theorem NoParens_append_operand (Queue : List FSUDSExpressionItem) (v : FSUDSValue)
    (hq : NoParens Queue) : NoParens (Queue ++ [operandItem v]) := by
  intro Item hmem
  rcases List.mem_append.1 hmem with h | h
  · exact hq Item h
  · rw [List.mem_singleton] at h
    subst h
    exact ⟨by simp [operandItem], by simp [operandItem]⟩

theorem popApplied_noParens (X : Externals) (op : ESUDSExpressionItemType) (b : Bool)
    (h : appliesBefore X .LParens op b = false) (Stack : List ESUDSExpressionItemType) :
    ∀ Queue, ESUDSExpressionItemType.RParens ∉ Stack → NoParens Queue →
      NoParens (popApplied X op b Stack Queue).2 ∧
        ESUDSExpressionItemType.RParens ∉ (popApplied X op b Stack Queue).1 := by
  induction Stack with
  | nil => intro Queue hs hq; exact ⟨hq, hs⟩
  | cons Top Stack ih =>
    intro Queue hs hq
    have hTop : Top ≠ .RParens := fun e => hs (e ▸ List.mem_cons_self _ _)
    have hRest : ESUDSExpressionItemType.RParens ∉ Stack :=
      fun m => hs (List.mem_cons_of_mem _ m)
    by_cases hc : appliesBefore X Top op b = true
    · have hne : Top ≠ .LParens := by
        rintro rfl
        rw [h] at hc
        exact absurd hc (by decide)
      rw [popApplied, if_pos hc]
      exact ih _ hRest (NoParens_append_operator X Queue Top hq hne hTop)
    · rw [popApplied, if_neg hc]
      exact ⟨hq, hs⟩

theorem popToLParens_noParens (X : Externals) (Stack : List ESUDSExpressionItemType) :
    ∀ Queue, ESUDSExpressionItemType.RParens ∉ Stack → NoParens Queue →
      NoParens (popToLParens X Stack Queue).2 ∧
        ESUDSExpressionItemType.RParens ∉ (popToLParens X Stack Queue).1 := by
  induction Stack with
  | nil => intro Queue hs hq; exact ⟨hq, hs⟩
  | cons Top Stack ih =>
    intro Queue hs hq
    have hTop : Top ≠ .RParens := fun e => hs (e ▸ List.mem_cons_self _ _)
    have hRest : ESUDSExpressionItemType.RParens ∉ Stack :=
      fun m => hs (List.mem_cons_of_mem _ m)
    by_cases hne : Top = .LParens
    · subst hne
      simpa [popToLParens] using And.intro hq hs
    · rw [popToLParens, if_pos (by simpa using hne)]
      exact ih _ hRest (NoParens_append_operator X Queue Top hq hne hTop)

theorem finishUp_noParens (X : Externals) (Stack : List ESUDSExpressionItemType) :
    ∀ st : ParseState, NoParens st.Queue → NoParens (finishUp X st Stack).Queue := by
  induction Stack with
  | nil => intro st hq; simpa [finishUp] using hq
  | cons Top Stack ih =>
    intro st hq
    rw [finishUp]
    split
    · exact hq
    · rename_i hT
      have h1 : Top ≠ .LParens := by
        rintro rfl
        simp at hT
      have h2 : Top ≠ .RParens := by
        rintro rfl
        simp at hT
      exact ih _ (NoParens_append_operator X st.Queue Top hq h1 h2)

theorem processToken_noParens (X : Externals) (hX : ParensAfterOperators X)
    (st : ParseState) (Str : FString) (hq : NoParens st.Queue)
    (hs : ESUDSExpressionItemType.RParens ∉ st.OperatorStack) :
    NoParens (processToken X st Str).1.Queue ∧
      ESUDSExpressionItemType.RParens ∉ (processToken X st Str).1.OperatorStack := by
  by_cases hL : ParseOperator Str = .LParens
  · rw [processToken_lparens X st Str hL]
    refine ⟨hq, ?_⟩
    intro m
    rcases List.mem_cons.1 m with e | m
    · exact absurd e (by decide)
    · exact hs m
  · by_cases hR : ParseOperator Str = .RParens
    · rw [processToken_rparens X st Str hR]
      have hp := popToLParens_noParens X st.OperatorStack st.Queue hs hq
      rcases hpop : popToLParens X st.OperatorStack st.Queue with ⟨Stack, Queue⟩
      rw [hpop] at hp
      cases Stack with
      | nil => exact ⟨hp.1, by simp⟩
      | cons Top Rest => exact ⟨hp.1, fun m => hp.2 (List.mem_cons_of_mem _ m)⟩
    · by_cases hN : ParseOperator Str = .Null
      · cases hv : ParseOperand X Str with
        | none =>
          rw [processToken_unrecognised X st Str hN hv]
          exact ⟨hq, hs⟩
        | some v =>
          rw [processToken_operand X st Str v hN hv]
          exact ⟨NoParens_append_operand st.Queue v hq, hs⟩
      · rw [processToken_operator X st Str _ rfl hN hL hR]
        have hp := popApplied_noParens X (ParseOperator Str) (ParseOperator Str != .Not)
          (appliesBefore_LParens X hX _ _ hN hL hR (ParseOperator_ne_Operand Str))
          st.OperatorStack st.Queue hs hq
        refine ⟨hp.1, ?_⟩
        intro m
        rcases List.mem_cons.1 m with e | m
        · exact hR e.symm
        · exact hp.2 m

theorem parseTokens_noParens (X : Externals) (hX : ParensAfterOperators X)
    (Tokens : List FString) :
    ∀ st : ParseState, NoParens st.Queue →
      ESUDSExpressionItemType.RParens ∉ st.OperatorStack →
      NoParens (parseTokens X st Tokens).Queue := by
  induction Tokens with
  | nil => intro st hq _; exact hq
  | cons Str rest ih =>
    intro st hq hs
    have hp := processToken_noParens X hX st Str hq hs
    rw [parseTokens_cons]
    split
    · exact ih _ hp.1 hp.2
    · exact hp.1

/-- C12: when `LParens` is declared after every operator, the queue compiled by
`ParseFromString` holds no LParens item and no RParens item, for every source string and
so for every one on which it returns true. -/
theorem compiled_queue_has_no_parentheses (X : Externals) (hX : ParensAfterOperators X)
    (Expression : FString) (Item : FSUDSExpressionItem)
    (hmem : Item ∈ (ParseFromString X Expression).Queue) :
    Item.ItemType ≠ .LParens ∧ Item.ItemType ≠ .RParens := by
  have h := parseTokens_noParens X hX (tokenize Expression) initialParseState
    (by intro i hi; simp [initialParseState] at hi) (by simp [initialParseState])
  exact finishUp_noParens X _ _ h Item hmem

/-- C12 on "(1 + 2) * 3", whose queue is [1, 2, Add, 3, Multiply]. -/
theorem compiled_queue_has_no_parentheses_example :
    (ParseFromString sampleExternals "(1 + 2) * 3".toList).bIsValid = true ∧
    (operandItem (.Int32 2)).ItemType ≠ .LParens ∧
    (operandItem (.Int32 2)).ItemType ≠ .RParens :=
  ⟨by decide,
   compiled_queue_has_no_parentheses sampleExternals (by intro t; cases t <;> decide)
     "(1 + 2) * 3".toList (operandItem (.Int32 2)) (by decide)⟩

/-! ## Two binary operators in a row -/

theorem compileTokens_two_operators (X : Externals) (ta tp tb tq tc : FString)
    (a b c : FSUDSValue) (p q : ESUDSExpressionItemType)
    (ha : IsOperandToken X ta a) (hb : IsOperandToken X tb b) (hc : IsOperandToken X tc c)
    (hp : ParseOperator tp = p) (hq : ParseOperator tq = q)
    (hp0 : p ≠ .Null) (hp1 : p ≠ .LParens) (hp2 : p ≠ .RParens)
    (hq0 : q ≠ .Null) (hq1 : q ≠ .LParens) (hq2 : q ≠ .RParens) :
    compileTokens X [ta, tp, tb, tq, tc] =
      ⟨true,
        if appliesBefore X p q (q != .Not) then
          [operandItem a, operandItem b, X.operatorItem p, operandItem c, X.operatorItem q]
        else
          [operandItem a, operandItem b, operandItem c, X.operatorItem q,
            X.operatorItem p]⟩ := by
  have pa := fun st => processToken_operand X st ta a ha.1 ha.2
  have pb := fun st => processToken_operand X st tb b hb.1 hb.2
  have pc := fun st => processToken_operand X st tc c hc.1 hc.2
  have pp := fun st => processToken_operator X st tp p hp hp0 hp1 hp2
  have pq := fun st => processToken_operator X st tq q hq hq0 hq1 hq2
  simp only [compileTokens, parseTokens_cons, parseTokens_nil, pa, pb, pc, pp, pq]
  cases happ : appliesBefore X p q (q != .Not) <;>
    simp [initialParseState, popApplied, happ, finishUp, hp1, hp2, hq1, hq2]

theorem appliesBefore_of_lt (X : Externals) (p q : ESUDSExpressionItemType) (b : Bool)
    (h : X.itemCode p < X.itemCode q) : appliesBefore X p q b = true := by
  simp [appliesBefore, h]

theorem appliesBefore_of_gt (X : Externals) (p q : ESUDSExpressionItemType) (b : Bool)
    (h : X.itemCode q < X.itemCode p) : appliesBefore X p q b = false := by
  simp [appliesBefore, Nat.not_lt_of_gt h, Nat.not_le_of_gt h]

theorem compileTokens_by_precedence_class (X : Externals)
    (hX : DeclaredByPrecedence X) (ta tb tc : FString) (a b c : FSUDSValue)
    (ha : IsOperandToken X ta a) (hb : IsOperandToken X tb b)
    (hc : IsOperandToken X tc c) :
    (∀ Expression, tokenize Expression = [ta, "+".toList, tb, "*".toList, tc] →
      ParseFromString X Expression =
        ⟨true, [operandItem a, operandItem b, operandItem c, X.operatorItem .Multiply,
          X.operatorItem .Add]⟩) ∧
    (∀ Expression, tokenize Expression = [ta, "*".toList, tb, "+".toList, tc] →
      ParseFromString X Expression =
        ⟨true, [operandItem a, operandItem b, X.operatorItem .Multiply, operandItem c,
          X.operatorItem .Add]⟩) ∧
    (∀ Expression, tokenize Expression = [ta, "or".toList, tb, "and".toList, tc] →
      ParseFromString X Expression =
        ⟨true, [operandItem a, operandItem b, operandItem c, X.operatorItem .And,
          X.operatorItem .Or]⟩) ∧
    (∀ Expression, tokenize Expression = [ta, "<".toList, tb, "+".toList, tc] →
      ParseFromString X Expression =
        ⟨true, [operandItem a, operandItem b, operandItem c, X.operatorItem .Add,
          X.operatorItem .Less]⟩) := by
  have hMulAdd : X.itemCode .Multiply < X.itemCode .Add := hX .Add .Multiply (by decide) (by decide)
  have hAndOr : X.itemCode .And < X.itemCode .Or := hX .Or .And (by decide) (by decide)
  have hAddLess : X.itemCode .Add < X.itemCode .Less := hX .Less .Add (by decide) (by decide)
  refine ⟨?_, ?_, ?_, ?_⟩
  · intro Expression htok
    rw [ParseFromString, htok,
      compileTokens_two_operators X ta _ tb _ tc a b c .Add .Multiply ha hb hc (by decide)
        (by decide) (by decide) (by decide) (by decide) (by decide) (by decide) (by decide),
      appliesBefore_of_gt X _ _ _ hMulAdd]
    rfl
  · intro Expression htok
    rw [ParseFromString, htok,
      compileTokens_two_operators X ta _ tb _ tc a b c .Multiply .Add ha hb hc (by decide)
        (by decide) (by decide) (by decide) (by decide) (by decide) (by decide) (by decide),
      appliesBefore_of_lt X _ _ _ hMulAdd]
    rfl
  · intro Expression htok
    rw [ParseFromString, htok,
      compileTokens_two_operators X ta _ tb _ tc a b c .Or .And ha hb hc (by decide)
        (by decide) (by decide) (by decide) (by decide) (by decide) (by decide) (by decide),
      appliesBefore_of_gt X _ _ _ hAndOr]
    rfl
  · intro Expression htok
    rw [ParseFromString, htok,
      compileTokens_two_operators X ta _ tb _ tc a b c .Less .Add ha hb hc (by decide)
        (by decide) (by decide) (by decide) (by decide) (by decide) (by decide) (by decide),
      appliesBefore_of_gt X _ _ _ hAddLess]
    rfl

/-! ## Tokens of variable references -/

theorem tokenizeFrom_not_space (tail : List Char) :
    tokenizeFrom 0 ("not ".toList ++ tail) = "not".toList :: tokenizeFrom 0 tail := by
  rfl

theorem tokenizeFrom_space_and_space (tail : List Char) :
    tokenizeFrom 0 (" and ".toList ++ tail) = "and".toList :: tokenizeFrom 0 tail := by
  rfl

theorem tokenizeFrom_skip (l rest : List Char) :
    tokenizeFrom l.length (l ++ rest) = tokenizeFrom 0 rest := by
  induction l with
  | nil => rfl
  | cons c l ih =>
    simp only [List.length_cons, List.cons_append]
    rw [tokenizeFrom]
    exact ih

theorem matchAt_variableRef (a rest : List Char) (ha : IsVariableWord a) :
    matchAt (variableRef a ++ rest) = some (variableRef a) := by
  obtain ⟨hne, hw⟩ := ha
  have hclose : ¬ isWordChar '\x7d' = true := by decide
  have htake : (a ++ '\x7d' :: rest).takeWhile isWordChar = a := by
    rw [List.takeWhile_append_of_pos hw, List.takeWhile_cons_of_neg hclose, List.append_nil]
  have hdrop : (a ++ '\x7d' :: rest).dropWhile isWordChar = '\x7d' :: rest := by
    rw [List.dropWhile_append_of_pos hw, List.dropWhile_cons_of_neg hclose]
  have hm : matchVariableRef (variableRef a ++ rest) = some (variableRef a) := by
    cases a with
    | nil => exact absurd rfl hne
    | cons w ws =>
      simp only [variableRef, List.cons_append, List.append_assoc, List.nil_append,
        matchVariableRef] at *
      rw [htake, hdrop]
      rfl
  simp only [matchAt, patternAlternatives, firstMatch, hm]

theorem tokenizeFrom_variableRef (a rest : List Char) (ha : IsVariableWord a) :
    tokenizeFrom 0 (variableRef a ++ rest) = variableRef a :: tokenizeFrom 0 rest := by
  have hm := matchAt_variableRef a rest ha
  have hshape : variableRef a ++ rest = '\x7b' :: ((a ++ ['\x7d']) ++ rest) := by
    simp [variableRef]
  rw [hshape] at hm ⊢
  rw [tokenizeFrom, hm]
  simp only
  have hlen : (variableRef a).length - 1 = (a ++ ['\x7d']).length := by
    simp [variableRef]
  rw [hlen, tokenizeFrom_skip]

theorem equalsIgnoreCase_of_head_ne (c : Char) (r : List Char) (lit : String)
    (h : (lit.toList.map Char.toLower).head? ≠ some c.toLower) :
    equalsIgnoreCase (c :: r) lit = false := by
  unfold equalsIgnoreCase
  cases hl : lit.toList.map Char.toLower with
  | nil => rfl
  | cons d ds =>
    rw [hl] at h
    have hd : d ≠ c.toLower := fun e => h (by simp [e])
    simp only [List.map_cons]
    apply Bool.eq_false_iff.2
    intro heq
    have := eq_of_beq heq
    exact hd (List.cons.inj this).1.symm

theorem ParseOperator_variableRef (a : List Char) : ParseOperator (variableRef a) = .Null := by
  have e : ∀ lit : String, (lit.toList.map Char.toLower).head? ≠ some ('\x7b' : Char).toLower →
      equalsIgnoreCase (variableRef a) lit = false :=
    fun lit h => equalsIgnoreCase_of_head_ne _ _ lit h
  unfold ParseOperator
  rw [e "+" (by decide), e "-" (by decide), e "*" (by decide), e "/" (by decide),
    e "and" (by decide), e "&&" (by decide), e "or" (by decide), e "||" (by decide),
    e "not" (by decide), e "!" (by decide), e "==" (by decide), e "=" (by decide),
    e ">=" (by decide), e ">" (by decide), e "<=" (by decide), e "<" (by decide),
    e "<>" (by decide), e "!=" (by decide), e "(" (by decide), e ")" (by decide)]
  rfl

theorem ParseOperand_variableRef (X : Externals) (a : List Char)
    (ha : ∀ c ∈ a, isWordChar c = true) :
    ParseOperand X (variableRef a) = some (.VariableName a) := by
  have e : ∀ lit : String, (lit.toList.map Char.toLower).head? ≠ some ('\x7b' : Char).toLower →
      equalsIgnoreCase (variableRef a) lit = false :=
    fun lit h => equalsIgnoreCase_of_head_ne _ _ lit h
  have hp : ∀ c ∈ a, (fun x : Char => x != '\x7d') c = true := by
    intro c hc
    have hw := ha c hc
    simp only [bne_iff_ne, ne_eq]
    rintro rfl
    exact absurd hw (by decide)
  have hnamed : parseNamedOperand (variableRef a) = some (.VariableName a) := by
    unfold parseNamedOperand
    rw [e "true" (by decide), e "false" (by decide), e "masculine" (by decide),
      e "feminine" (by decide), e "neuter" (by decide)]
    have hq : matchDelimited '\"' '\"' (variableRef a) = none := rfl
    have hb : matchDelimited '\x7b' '\x7d' (variableRef a) = some a := by
      show matchDelimited '\x7b' '\x7d' ('\x7b' :: (a ++ ['\x7d'])) = some a
      simp only [matchDelimited, beq_self_eq_true, if_true]
      rw [List.dropWhile_append_of_pos hp, List.takeWhile_append_of_pos hp]
      simp [atEndAnchor]
    simp [hq, hb]
  exact ParseOperand_named X _ _ hnamed

theorem isOperandToken_variableRef (X : Externals) (a : List Char) (ha : IsVariableWord a) :
    IsOperandToken X (variableRef a) (.VariableName a) :=
  ⟨ParseOperator_variableRef a, ParseOperand_variableRef X a ha.2⟩

theorem tokenizeFrom_variableRef_end (a : List Char) (ha : IsVariableWord a) :
    tokenizeFrom 0 (variableRef a) = [variableRef a] := by
  have h := tokenizeFrom_variableRef a [] ha
  rw [List.append_nil] at h
  rw [h]
  rfl

theorem tokenize_infix_chain (a b c s1 s2 : List Char) (o1 o2 : FString)
    (ha : IsVariableWord a) (hb : IsVariableWord b) (hc : IsVariableWord c)
    (h1 : ∀ tail, tokenizeFrom 0 (s1 ++ tail) = o1 :: tokenizeFrom 0 tail)
    (h2 : ∀ tail, tokenizeFrom 0 (s2 ++ tail) = o2 :: tokenizeFrom 0 tail) :
    tokenize (variableRef a ++ s1 ++ variableRef b ++ s2 ++ variableRef c) =
      [variableRef a, o1, variableRef b, o2, variableRef c] := by
  unfold tokenize
  simp only [List.append_assoc]
  rw [tokenizeFrom_variableRef a _ ha, h1, tokenizeFrom_variableRef b _ hb, h2,
    tokenizeFrom_variableRef_end c hc]


/-! ## Operators of different precedence classes -/

/-- C13: when the operators are declared in order of precedence, then for all operand
tokens a, b, c and every source string that tokenizes to them, "a + b * c" compiles to
[a, b, c, Multiply, Add], "a * b + c" to [a, b, Multiply, c, Add], "a or b and c" to
[a, b, c, And, Or] and "a < b + c" to [a, b, c, Add, Less]; in particular the four
sources written with variable operands compile so, for all variable names. -/
theorem higher_precedence_class_binds_tighter (X : Externals)
    (hX : DeclaredByPrecedence X) :
    (∀ (ta tb tc : FString) (a b c : FSUDSValue), IsOperandToken X ta a →
      IsOperandToken X tb b → IsOperandToken X tc c →
      (∀ Expression, tokenize Expression = [ta, "+".toList, tb, "*".toList, tc] →
        ParseFromString X Expression =
          ⟨true, [operandItem a, operandItem b, operandItem c, X.operatorItem .Multiply,
            X.operatorItem .Add]⟩) ∧
      (∀ Expression, tokenize Expression = [ta, "*".toList, tb, "+".toList, tc] →
        ParseFromString X Expression =
          ⟨true, [operandItem a, operandItem b, X.operatorItem .Multiply, operandItem c,
            X.operatorItem .Add]⟩) ∧
      (∀ Expression, tokenize Expression = [ta, "or".toList, tb, "and".toList, tc] →
        ParseFromString X Expression =
          ⟨true, [operandItem a, operandItem b, operandItem c, X.operatorItem .And,
            X.operatorItem .Or]⟩) ∧
      (∀ Expression, tokenize Expression = [ta, "<".toList, tb, "+".toList, tc] →
        ParseFromString X Expression =
          ⟨true, [operandItem a, operandItem b, operandItem c, X.operatorItem .Add,
            X.operatorItem .Less]⟩)) ∧
    (∀ a b c : List Char, IsVariableWord a → IsVariableWord b → IsVariableWord c →
      ParseFromString X
          (variableRef a ++ " + ".toList ++ variableRef b ++ " * ".toList ++ variableRef c) =
        ⟨true, [operandItem (.VariableName a), operandItem (.VariableName b),
          operandItem (.VariableName c), X.operatorItem .Multiply, X.operatorItem .Add]⟩ ∧
      ParseFromString X
          (variableRef a ++ " * ".toList ++ variableRef b ++ " + ".toList ++ variableRef c) =
        ⟨true, [operandItem (.VariableName a), operandItem (.VariableName b),
          X.operatorItem .Multiply, operandItem (.VariableName c), X.operatorItem .Add]⟩ ∧
      ParseFromString X
          (variableRef a ++ " or ".toList ++ variableRef b ++ " and ".toList ++
            variableRef c) =
        ⟨true, [operandItem (.VariableName a), operandItem (.VariableName b),
          operandItem (.VariableName c), X.operatorItem .And, X.operatorItem .Or]⟩ ∧
      ParseFromString X
          (variableRef a ++ " < ".toList ++ variableRef b ++ " + ".toList ++ variableRef c) =
        ⟨true, [operandItem (.VariableName a), operandItem (.VariableName b),
          operandItem (.VariableName c), X.operatorItem .Add, X.operatorItem .Less]⟩) := by
  refine ⟨fun ta tb tc a b c ha hb hc =>
    compileTokens_by_precedence_class X hX ta tb tc a b c ha hb hc, ?_⟩
  intro a b c ha hb hc
  have h := compileTokens_by_precedence_class X hX (variableRef a) (variableRef b)
    (variableRef c) _ _ _ (isOperandToken_variableRef X a ha)
    (isOperandToken_variableRef X b hb) (isOperandToken_variableRef X c hc)
  exact ⟨h.1 _ (tokenize_infix_chain a b c _ _ _ _ ha hb hc (fun _ => rfl) (fun _ => rfl)),
    h.2.1 _ (tokenize_infix_chain a b c _ _ _ _ ha hb hc (fun _ => rfl) (fun _ => rfl)),
    h.2.2.1 _ (tokenize_infix_chain a b c _ _ _ _ ha hb hc (fun _ => rfl) (fun _ => rfl)),
    h.2.2.2 _ (tokenize_infix_chain a b c _ _ _ _ ha hb hc (fun _ => rfl) (fun _ => rfl))⟩

theorem sampleExternals_declaredByPrecedence : DeclaredByPrecedence sampleExternals := by
  intro p q
  cases p <;> cases q <;> decide

/-- C13 on the sources "1 + 2 * 3", "1 * 2 + 3", "1 or 2 and 3" and "1 < 2 + 3". -/
theorem higher_precedence_class_examples :
    ParseFromString sampleExternals "1 + 2 * 3".toList =
      ⟨true, [operandItem (.Int32 1), operandItem (.Int32 2), operandItem (.Int32 3),
        sampleExternals.operatorItem .Multiply, sampleExternals.operatorItem .Add]⟩ ∧
    ParseFromString sampleExternals "1 * 2 + 3".toList =
      ⟨true, [operandItem (.Int32 1), operandItem (.Int32 2),
        sampleExternals.operatorItem .Multiply, operandItem (.Int32 3),
        sampleExternals.operatorItem .Add]⟩ ∧
    ParseFromString sampleExternals "1 or 2 and 3".toList =
      ⟨true, [operandItem (.Int32 1), operandItem (.Int32 2), operandItem (.Int32 3),
        sampleExternals.operatorItem .And, sampleExternals.operatorItem .Or]⟩ ∧
    ParseFromString sampleExternals "1 < 2 + 3".toList =
      ⟨true, [operandItem (.Int32 1), operandItem (.Int32 2), operandItem (.Int32 3),
        sampleExternals.operatorItem .Add, sampleExternals.operatorItem .Less]⟩ :=
  have h := (higher_precedence_class_binds_tighter sampleExternals
    sampleExternals_declaredByPrecedence).1 "1".toList "2".toList "3".toList
    (.Int32 1) (.Int32 2) (.Int32 3) ⟨by decide, by decide⟩ ⟨by decide, by decide⟩
    ⟨by decide, by decide⟩
  ⟨h.1 _ (by decide), h.2.1 _ (by decide), h.2.2.1 _ (by decide), h.2.2.2 _ (by decide)⟩

/-! ## Operators of one precedence class -/

/-- C14: the values of Add and Subtract differ, and so do those of Multiply and Divide
(they are case labels of one switch), so two different operators of a class never have
equal precedence in the operator loop: for all variable operands a, b, c either
"a - b + c" compiles to [a, b, c, Add, Subtract] or "a + b - c" compiles to
[a, b, c, Subtract, Add], and either "a / b * c" compiles to [a, b, c, Multiply, Divide]
or "a * b / c" compiles to [a, b, c, Divide, Multiply]. -/
theorem same_class_operators_are_not_left_associative (X : Externals)
    (hAS : X.itemCode .Add ≠ X.itemCode .Subtract)
    (hMD : X.itemCode .Multiply ≠ X.itemCode .Divide)
    (a b c : List Char) (ha : IsVariableWord a) (hb : IsVariableWord b)
    (hc : IsVariableWord c) :
    (ParseFromString X
        (variableRef a ++ " - ".toList ++ variableRef b ++ " + ".toList ++ variableRef c) =
        ⟨true, [operandItem (.VariableName a), operandItem (.VariableName b),
          operandItem (.VariableName c), X.operatorItem .Add, X.operatorItem .Subtract]⟩ ∨
      ParseFromString X
        (variableRef a ++ " + ".toList ++ variableRef b ++ " - ".toList ++ variableRef c) =
        ⟨true, [operandItem (.VariableName a), operandItem (.VariableName b),
          operandItem (.VariableName c), X.operatorItem .Subtract, X.operatorItem .Add]⟩) ∧
    (ParseFromString X
        (variableRef a ++ " / ".toList ++ variableRef b ++ " * ".toList ++ variableRef c) =
        ⟨true, [operandItem (.VariableName a), operandItem (.VariableName b),
          operandItem (.VariableName c), X.operatorItem .Multiply, X.operatorItem .Divide]⟩ ∨
      ParseFromString X
        (variableRef a ++ " * ".toList ++ variableRef b ++ " / ".toList ++ variableRef c) =
        ⟨true, [operandItem (.VariableName a), operandItem (.VariableName b),
          operandItem (.VariableName c), X.operatorItem .Divide,
          X.operatorItem .Multiply]⟩) := by
  have oa := isOperandToken_variableRef X a ha
  have ob := isOperandToken_variableRef X b hb
  have oc := isOperandToken_variableRef X c hc
  have compile := fun (s1 s2 : List Char) (o1 o2 : FString) (p q : ESUDSExpressionItemType)
      (h1 : ∀ tail, tokenizeFrom 0 (s1 ++ tail) = o1 :: tokenizeFrom 0 tail)
      (h2 : ∀ tail, tokenizeFrom 0 (s2 ++ tail) = o2 :: tokenizeFrom 0 tail)
      (hp : ParseOperator o1 = p) (hq : ParseOperator o2 = q)
      (hp0 : p ≠ .Null) (hp1 : p ≠ .LParens) (hp2 : p ≠ .RParens)
      (hq0 : q ≠ .Null) (hq1 : q ≠ .LParens) (hq2 : q ≠ .RParens)
      (hlt : X.itemCode q < X.itemCode p) =>
    show ParseFromString X (variableRef a ++ s1 ++ variableRef b ++ s2 ++ variableRef c) =
        ⟨true, [operandItem (.VariableName a), operandItem (.VariableName b),
          operandItem (.VariableName c), X.operatorItem q, X.operatorItem p]⟩ by
      rw [ParseFromString, tokenize_infix_chain a b c s1 s2 o1 o2 ha hb hc h1 h2,
        compileTokens_two_operators X _ o1 _ o2 _ _ _ _ p q oa ob oc hp hq hp0 hp1 hp2
          hq0 hq1 hq2,
        appliesBefore_of_gt X p q _ hlt]
      rfl
  constructor
  · rcases Nat.lt_or_gt_of_ne hAS with h | h
    · exact Or.inl (compile " - ".toList " + ".toList "-".toList "+".toList .Subtract .Add
        (fun _ => rfl) (fun _ => rfl) (by decide) (by decide) (by decide) (by decide)
        (by decide) (by decide) (by decide) (by decide) h)
    · exact Or.inr (compile " + ".toList " - ".toList "+".toList "-".toList .Add .Subtract
        (fun _ => rfl) (fun _ => rfl) (by decide) (by decide) (by decide) (by decide)
        (by decide) (by decide) (by decide) (by decide) h)
  · rcases Nat.lt_or_gt_of_ne hMD with h | h
    · exact Or.inl (compile " / ".toList " * ".toList "/".toList "*".toList .Divide .Multiply
        (fun _ => rfl) (fun _ => rfl) (by decide) (by decide) (by decide) (by decide)
        (by decide) (by decide) (by decide) (by decide) h)
    · exact Or.inr (compile " * ".toList " / ".toList "*".toList "/".toList .Multiply .Divide
        (fun _ => rfl) (fun _ => rfl) (by decide) (by decide) (by decide) (by decide)
        (by decide) (by decide) (by decide) (by decide) h)

/-- C14 on the variables a, b, c, where Add is declared before Subtract and Multiply
before Divide: "{a} - {b} + {c}" compiles to [a, b, c, Add, Subtract] and
"{a} / {b} * {c}" to [a, b, c, Multiply, Divide]. -/
theorem same_class_operators_example :
    (ParseFromString sampleExternals "\x7ba\x7d - \x7bb\x7d + \x7bc\x7d".toList =
        ⟨true, [operandItem (.VariableName ['a']), operandItem (.VariableName ['b']),
          operandItem (.VariableName ['c']), sampleExternals.operatorItem .Add,
          sampleExternals.operatorItem .Subtract]⟩ ∨
      ParseFromString sampleExternals "\x7ba\x7d + \x7bb\x7d - \x7bc\x7d".toList =
        ⟨true, [operandItem (.VariableName ['a']), operandItem (.VariableName ['b']),
          operandItem (.VariableName ['c']), sampleExternals.operatorItem .Subtract,
          sampleExternals.operatorItem .Add]⟩) ∧
    ParseFromString sampleExternals "\x7ba\x7d - \x7bb\x7d + \x7bc\x7d".toList ≠
        ⟨true, [operandItem (.VariableName ['a']), operandItem (.VariableName ['b']),
          sampleExternals.operatorItem .Subtract, operandItem (.VariableName ['c']),
          sampleExternals.operatorItem .Add]⟩ :=
  ⟨(same_class_operators_are_not_left_associative sampleExternals (by decide) (by decide)
      ['a'] ['b'] ['c'] ⟨by decide, by decide⟩ ⟨by decide, by decide⟩
      ⟨by decide, by decide⟩).1,
   by decide⟩

/-! ## Prefix not -/

theorem tokenizeFrom_not_not_space (tail : List Char) :
    tokenizeFrom 0 ("not not ".toList ++ tail) =
      "not".toList :: "not".toList :: tokenizeFrom 0 tail := by
  rfl

theorem tokenizeFrom_space_and_not_space (tail : List Char) :
    tokenizeFrom 0 (" and not ".toList ++ tail) =
      "and".toList :: "not".toList :: tokenizeFrom 0 tail := by
  rfl

theorem compileTokens_not_not (X : Externals) (ta : FString) (a : FSUDSValue)
    (ha : IsOperandToken X ta a) :
    compileTokens X ["not".toList, "not".toList, ta] =
      ⟨true, [operandItem a, X.operatorItem .Not, X.operatorItem .Not]⟩ := by
  have pa := fun st => processToken_operand X st ta a ha.1 ha.2
  have pn := fun st =>
    processToken_operator X st "not".toList .Not rfl (by decide) (by decide) (by decide)
  simp only [compileTokens, parseTokens_cons, parseTokens_nil, pa, pn]
  simp [initialParseState, popApplied, appliesBefore, finishUp]

theorem compileTokens_not_then_binary (X : Externals) (ta top tb : FString)
    (a b : FSUDSValue) (op : ESUDSExpressionItemType)
    (ha : IsOperandToken X ta a) (hb : IsOperandToken X tb b)
    (hop : ParseOperator top = op) (h0 : op ≠ .Null) (h1 : op ≠ .LParens)
    (h2 : op ≠ .RParens) (hlt : X.itemCode .Not < X.itemCode op) :
    compileTokens X ["not".toList, ta, top, tb] =
      ⟨true, [operandItem a, X.operatorItem .Not, operandItem b, X.operatorItem op]⟩ := by
  have pa := fun st => processToken_operand X st ta a ha.1 ha.2
  have pb := fun st => processToken_operand X st tb b hb.1 hb.2
  have pn := fun st =>
    processToken_operator X st "not".toList .Not rfl (by decide) (by decide) (by decide)
  have po := fun st => processToken_operator X st top op hop h0 h1 h2
  simp only [compileTokens, parseTokens_cons, parseTokens_nil, pa, pb, pn, po]
  simp [initialParseState, popApplied, appliesBefore_of_lt X _ _ _ hlt, finishUp, h1, h2]

theorem compileTokens_binary_then_not (X : Externals) (ta top tb : FString)
    (a b : FSUDSValue) (op : ESUDSExpressionItemType)
    (ha : IsOperandToken X ta a) (hb : IsOperandToken X tb b)
    (hop : ParseOperator top = op) (h0 : op ≠ .Null) (h1 : op ≠ .LParens)
    (h2 : op ≠ .RParens) (hlt : X.itemCode .Not < X.itemCode op) :
    compileTokens X [ta, top, "not".toList, tb] =
      ⟨true, [operandItem a, operandItem b, X.operatorItem .Not, X.operatorItem op]⟩ := by
  have pa := fun st => processToken_operand X st ta a ha.1 ha.2
  have pb := fun st => processToken_operand X st tb b hb.1 hb.2
  have pn := fun st =>
    processToken_operator X st "not".toList .Not rfl (by decide) (by decide) (by decide)
  have po := fun st => processToken_operator X st top op hop h0 h1 h2
  simp only [compileTokens, parseTokens_cons, parseTokens_nil, pa, pb, pn, po]
  simp [initialParseState, popApplied, appliesBefore_of_gt X _ _ _ hlt, finishUp, h1, h2]

/-- C20: when the operators are declared in order of precedence, then for all variable
operands a and b, "not not {a}" compiles to [a, Not, Not], "not {a} and {b}" to
[a, Not, b, And] and "{a} and not {b}" to [a, b, Not, And]; and the same holds with any
binary operator token in the place of "and", for all operand tokens. -/
theorem unary_not_binds_tightest (X : Externals) (hX : DeclaredByPrecedence X)
    (a b : List Char) (ha : IsVariableWord a) (hb : IsVariableWord b) :
    ParseFromString X ("not not ".toList ++ variableRef a) =
      ⟨true, [operandItem (.VariableName a), X.operatorItem .Not, X.operatorItem .Not]⟩ ∧
    ParseFromString X ("not ".toList ++ variableRef a ++ " and ".toList ++ variableRef b) =
      ⟨true, [operandItem (.VariableName a), X.operatorItem .Not,
        operandItem (.VariableName b), X.operatorItem .And]⟩ ∧
    ParseFromString X (variableRef a ++ " and not ".toList ++ variableRef b) =
      ⟨true, [operandItem (.VariableName a), operandItem (.VariableName b),
        X.operatorItem .Not, X.operatorItem .And]⟩ ∧
    ∀ (ta top tb : FString) (va vb : FSUDSValue) (op : ESUDSExpressionItemType),
      IsOperandToken X ta va → IsOperandToken X tb vb → ParseOperator top = op →
      0 < precedenceClass op → op ≠ .Not →
      (∀ Expression, tokenize Expression = ["not".toList, ta, top, tb] →
        ParseFromString X Expression =
          ⟨true, [operandItem va, X.operatorItem .Not, operandItem vb,
            X.operatorItem op]⟩) ∧
      (∀ Expression, tokenize Expression = [ta, top, "not".toList, tb] →
        ParseFromString X Expression =
          ⟨true, [operandItem va, operandItem vb, X.operatorItem .Not,
            X.operatorItem op]⟩) := by
  have oa := isOperandToken_variableRef X a ha
  have ob := isOperandToken_variableRef X b hb
  have hNotAnd : X.itemCode .Not < X.itemCode .And := hX .And .Not (by decide) (by decide)
  refine ⟨?_, ?_, ?_, ?_⟩
  · have htok : tokenize ("not not ".toList ++ variableRef a) =
        ["not".toList, "not".toList, variableRef a] := by
      unfold tokenize
      rw [tokenizeFrom_not_not_space, tokenizeFrom_variableRef_end a ha]
    rw [ParseFromString, htok, compileTokens_not_not X _ _ oa]
  · have htok :
        tokenize ("not ".toList ++ variableRef a ++ " and ".toList ++ variableRef b) =
          ["not".toList, variableRef a, "and".toList, variableRef b] := by
      unfold tokenize
      simp only [List.append_assoc]
      rw [tokenizeFrom_not_space, tokenizeFrom_variableRef a _ ha,
        tokenizeFrom_space_and_space, tokenizeFrom_variableRef_end b hb]
    rw [ParseFromString, htok,
      compileTokens_not_then_binary X _ "and".toList _ _ _ .And oa ob (by decide)
        (by decide) (by decide) (by decide) hNotAnd]
  · have htok : tokenize (variableRef a ++ " and not ".toList ++ variableRef b) =
        [variableRef a, "and".toList, "not".toList, variableRef b] := by
      unfold tokenize
      simp only [List.append_assoc]
      rw [tokenizeFrom_variableRef a _ ha, tokenizeFrom_space_and_not_space,
        tokenizeFrom_variableRef_end b hb]
    rw [ParseFromString, htok,
      compileTokens_binary_then_not X _ "and".toList _ _ _ .And oa ob (by decide)
        (by decide) (by decide) (by decide) hNotAnd]
  · intro ta top tb va vb op hta htb hop hclass hnot
    have h0 : op ≠ .Null := by rintro rfl; simp [precedenceClass] at hclass
    have h1 : op ≠ .LParens := by rintro rfl; simp [precedenceClass] at hclass
    have h2 : op ≠ .RParens := by rintro rfl; simp [precedenceClass] at hclass
    have hlt : X.itemCode .Not < X.itemCode op := by
      apply hX op .Not hclass
      cases op <;> simp_all [precedenceClass]
    constructor
    · intro Expression htok
      rw [ParseFromString, htok,
        compileTokens_not_then_binary X ta top tb va vb op hta htb hop h0 h1 h2 hlt]
    · intro Expression htok
      rw [ParseFromString, htok,
        compileTokens_binary_then_not X ta top tb va vb op hta htb hop h0 h1 h2 hlt]

/-- C20 on the variables a and b. -/
theorem unary_not_examples :
    ParseFromString sampleExternals "not not \x7ba\x7d".toList =
      ⟨true, [operandItem (.VariableName ['a']), sampleExternals.operatorItem .Not,
        sampleExternals.operatorItem .Not]⟩ ∧
    ParseFromString sampleExternals "not \x7ba\x7d and \x7bb\x7d".toList =
      ⟨true, [operandItem (.VariableName ['a']), sampleExternals.operatorItem .Not,
        operandItem (.VariableName ['b']), sampleExternals.operatorItem .And]⟩ ∧
    ParseFromString sampleExternals "\x7ba\x7d and not \x7bb\x7d".toList =
      ⟨true, [operandItem (.VariableName ['a']), operandItem (.VariableName ['b']),
        sampleExternals.operatorItem .Not, sampleExternals.operatorItem .And]⟩ :=
  have h := unary_not_binds_tightest sampleExternals sampleExternals_declaredByPrecedence
    ['a'] ['b'] ⟨by decide, by decide⟩ ⟨by decide, by decide⟩
  ⟨h.1, h.2.1, h.2.2.1⟩

/-! ## ParseOperator against the spellings of the spec -/

theorem equalsIgnoreCase_eq_decide (Str : FString) (lit : String)
    (hlit : lit.toList.map Char.toLower = lit.toList) :
    equalsIgnoreCase Str lit = decide (lowerCase Str = lit.toList) := by
  unfold equalsIgnoreCase lowerCase
  rw [hlit]
  by_cases h : List.map Char.toLower Str = lit.toList
  · rw [h, decide_eq_true rfl]
    exact beq_self_eq_true _
  · rw [decide_eq_false h]
    exact beq_false_of_ne h

theorem ParseOperator_eq_operatorOfSpelling (Str : FString) :
    ParseOperator Str = operatorOfSpelling (lowerCase Str) := by
  unfold ParseOperator
  rw [equalsIgnoreCase_eq_decide Str "+" (by decide), equalsIgnoreCase_eq_decide Str "-" (by decide), equalsIgnoreCase_eq_decide Str "*" (by decide), equalsIgnoreCase_eq_decide Str "/" (by decide), equalsIgnoreCase_eq_decide Str "and" (by decide), equalsIgnoreCase_eq_decide Str "&&" (by decide), equalsIgnoreCase_eq_decide Str "or" (by decide), equalsIgnoreCase_eq_decide Str "||" (by decide), equalsIgnoreCase_eq_decide Str "not" (by decide), equalsIgnoreCase_eq_decide Str "!" (by decide), equalsIgnoreCase_eq_decide Str "==" (by decide), equalsIgnoreCase_eq_decide Str "=" (by decide), equalsIgnoreCase_eq_decide Str ">=" (by decide), equalsIgnoreCase_eq_decide Str ">" (by decide), equalsIgnoreCase_eq_decide Str "<=" (by decide), equalsIgnoreCase_eq_decide Str "<" (by decide), equalsIgnoreCase_eq_decide Str "<>" (by decide), equalsIgnoreCase_eq_decide Str "!=" (by decide), equalsIgnoreCase_eq_decide Str "(" (by decide), equalsIgnoreCase_eq_decide Str ")" (by decide)]
  generalize lowerCase Str = L
  by_cases h0 : L = "+".toList
  · subst h0; decide
  by_cases h1 : L = "-".toList
  · subst h1; decide
  by_cases h2 : L = "*".toList
  · subst h2; decide
  by_cases h3 : L = "/".toList
  · subst h3; decide
  by_cases h4 : L = "and".toList
  · subst h4; decide
  by_cases h5 : L = "&&".toList
  · subst h5; decide
  by_cases h6 : L = "or".toList
  · subst h6; decide
  by_cases h7 : L = "||".toList
  · subst h7; decide
  by_cases h8 : L = "not".toList
  · subst h8; decide
  by_cases h9 : L = "!".toList
  · subst h9; decide
  by_cases h10 : L = "==".toList
  · subst h10; decide
  by_cases h11 : L = "=".toList
  · subst h11; decide
  by_cases h12 : L = ">=".toList
  · subst h12; decide
  by_cases h13 : L = ">".toList
  · subst h13; decide
  by_cases h14 : L = "<=".toList
  · subst h14; decide
  by_cases h15 : L = "<".toList
  · subst h15; decide
  by_cases h16 : L = "<>".toList
  · subst h16; decide
  by_cases h17 : L = "!=".toList
  · subst h17; decide
  by_cases h18 : L = "(".toList
  · subst h18; decide
  by_cases h19 : L = ")".toList
  · subst h19; decide
  have e : ∀ lit : String, L ≠ lit.toList → (lit.toList == L) = false := by
    intro lit h
    exact beq_false_of_ne (fun e => h e.symm)
  simp only [h0, h1, h2, h3, h4, h5, h6, h7, h8, h9, h10, h11, h12, h13, h14, h15, h16, h17, h18, h19, decide_False, Bool.or_false, Bool.false_eq_true, if_false]
  simp only [operatorOfSpelling, operatorSpellings, List.find?, e _ h0, e _ h1, e _ h2, e _ h3, e _ h4, e _ h5, e _ h6, e _ h7, e _ h8, e _ h9, e _ h10, e _ h11, e _ h12, e _ h13, e _ h14, e _ h15, e _ h16, e _ h17, e _ h18, e _ h19]

/-- C18, amended: `ParseOperator` compares without regard to letter case. It maps a string
to the operator that its lower-cased text spells, letter for letter, in the table of the
spec ("and"/"&&", "or"/"||", "not"/"!", "=="/"=", "!="/"<>", "<", "<=", ">", ">=", "+",
"-", "*", "/", "(", ")"), so each listed spelling gives its operator and two spellings of
one operator give the same result; and it maps to Null exactly the strings whose
lower-cased text is none of the spellings. -/
theorem ParseOperator_matches_spellings_ignoring_case (Str : FString) :
    ParseOperator Str = operatorOfSpelling (lowerCase Str) ∧
    (∀ entry ∈ operatorSpellings, ParseOperator entry.1.toList = entry.2) ∧
    (ParseOperator Str = .Null ↔
      ∀ entry ∈ operatorSpellings, entry.1.toList ≠ lowerCase Str) := by
  refine ⟨ParseOperator_eq_operatorOfSpelling Str, by decide, ?_⟩
  rw [ParseOperator_eq_operatorOfSpelling]
  unfold operatorOfSpelling
  constructor
  · intro h entry hmem heq
    cases hf : operatorSpellings.find? (fun entry => entry.1.toList == lowerCase Str) with
    | none =>
      have := List.find?_eq_none.1 hf entry hmem
      exact this (by simpa using heq)
    | some found =>
      rw [hf] at h
      simp only at h
      have hnn : ∀ e ∈ operatorSpellings, e.2 ≠ ESUDSExpressionItemType.Null := by decide
      exact hnn found (List.mem_of_find?_eq_some hf) h
  · intro h
    have : operatorSpellings.find? (fun entry => entry.1.toList == lowerCase Str) = none := by
      apply List.find?_eq_none.2
      intro entry hmem
      simpa using h entry hmem
    rw [this]

/-- C18 as stated fails: "AND" is none of the listed spellings, and `ParseOperator` maps it
to And, not to Null; likewise "Not" and "OR". -/
theorem ParseOperator_accepts_other_letter_case :
    ParseOperator "AND".toList = .And ∧ ParseOperator "Not".toList = .Not ∧
    ParseOperator "OR".toList = .Or ∧
    operatorOfSpelling "AND".toList = .Null ∧ operatorOfSpelling "Not".toList = .Null ∧
    operatorOfSpelling "OR".toList = .Null := by
  decide

/-! ## ParseOperand rule by rule -/

theorem matchDelimited_eq_some_iff (opening closing : Char) (Str body : FString) :
    matchDelimited opening closing Str = some body ↔ IsDelimited opening closing Str body := by
  constructor
  · intro h
    cases Str with
    | nil => simp [matchDelimited] at h
    | cons c cs =>
      simp only [matchDelimited] at h
      split at h
      · rename_i hc
        have hco : c = opening := by simpa using hc
        split at h
        · exact absurd h (by simp)
        · rename_i d rest hdrop
          split at h
          · rename_i hend
            have hbody : cs.takeWhile (fun x => x != closing) = body := by
              simpa using h
            have hd : d = closing := by
              have hnot := List.head?_dropWhile_not (fun x => x != closing) cs
              rw [hdrop] at hnot
              simpa using hnot
            have hsplit := List.takeWhile_append_dropWhile (fun x => x != closing) cs
            rw [hdrop, hbody, hd] at hsplit
            refine ⟨rest, ?_, ?_, hend⟩
            · rw [hco, ← hsplit, List.cons_append]
            · intro hmem
              rw [← hbody] at hmem
              have := List.mem_takeWhile_imp hmem
              simp at this
          · exact absurd h (by simp)
      · exact absurd h (by simp)
  · rintro ⟨tail, rfl, hnot, hend⟩
    have hp : ∀ x ∈ body, (fun x : Char => x != closing) x = true := by
      intro x hx
      simp only [bne_iff_ne, ne_eq]
      rintro rfl
      exact hnot hx
    have hcl : ¬ (fun x : Char => x != closing) closing = true := by simp
    rw [List.cons_append]
    simp only [matchDelimited, beq_self_eq_true, if_true]
    rw [List.dropWhile_append_of_pos hp,
      List.dropWhile_cons_of_neg (p := fun x => x != closing) hcl,
      List.takeWhile_append_of_pos hp,
      List.takeWhile_cons_of_neg (p := fun x => x != closing) hcl]
    simp [hend]

theorem matchDelimited_eq_none_iff (opening closing : Char) (Str : FString) :
    matchDelimited opening closing Str = none ↔
      ¬ ∃ body, IsDelimited opening closing Str body := by
  constructor
  · rintro h ⟨body, hb⟩
    rw [(matchDelimited_eq_some_iff opening closing Str body).2 hb] at h
    exact absurd h (by simp)
  · intro h
    cases hm : matchDelimited opening closing Str with
    | none => rfl
    | some body => exact absurd ⟨body, (matchDelimited_eq_some_iff _ _ _ _).1 hm⟩ h

theorem parseNamedOperand_of_keyword_free (Str : FString)
    (hk : lowerCase Str ∉ operandKeywords) :
    parseNamedOperand Str =
      match matchDelimited '\"' '\"' Str with
      | some Val => some (.Text Val)
      | none =>
        match matchDelimited '\x7b' '\x7d' Str with
        | some VariableName => some (.VariableName VariableName)
        | none => none := by
  simp only [operandKeywords, List.mem_cons, List.mem_singleton, List.not_mem_nil,
    or_false, not_or] at hk
  obtain ⟨h1, h2, h3, h4, h5⟩ := hk
  unfold parseNamedOperand
  rw [equalsIgnoreCase_eq_decide Str "true" (by decide),
    equalsIgnoreCase_eq_decide Str "false" (by decide),
    equalsIgnoreCase_eq_decide Str "masculine" (by decide),
    equalsIgnoreCase_eq_decide Str "feminine" (by decide),
    equalsIgnoreCase_eq_decide Str "neuter" (by decide)]
  simp only [h1, h2, h3, h4, h5, decide_False, Bool.false_eq_true, if_false]

theorem lowerCase_not_keyword_of_head (c : Char) (r : List Char)
    (hc : c.toLower ∉ ['t', 'f', 'm', 'n']) : lowerCase (c :: r) ∉ operandKeywords := by
  intro hmem
  simp only [operandKeywords, List.mem_cons, List.mem_singleton, List.not_mem_nil,
    or_false] at hmem
  apply hc
  rcases hmem with h | h | h | h | h <;>
    · have := (List.cons.inj (show c.toLower :: r.map Char.toLower = _ from h)).1
      rw [this]
      decide

/-- C19, amended: `ParseOperand` classifies a string by the first rule that matches, in
this order: true/false in any letter case gives a Boolean; masculine/feminine/neuter in
any letter case gives a Gender; a double-quoted string, possibly followed by the one line
terminator that ends the input, gives Text with the quotes stripped; a brace-delimited
name, possibly followed in the same way, gives a VariableName with the braces stripped;
a string that `ParseInt` accepts gives an Int; one that `ParseFloat` accepts gives a Float;
and it returns false for every string that matches none of these. -/
theorem ParseOperand_follows_rules_in_order (X : Externals) (Str : FString) :
    (lowerCase Str = "true".toList → ParseOperand X Str = some (.Boolean true)) ∧
    (lowerCase Str = "false".toList → ParseOperand X Str = some (.Boolean false)) ∧
    (lowerCase Str = "masculine".toList → ParseOperand X Str = some (.Gender .Masculine)) ∧
    (lowerCase Str = "feminine".toList → ParseOperand X Str = some (.Gender .Feminine)) ∧
    (lowerCase Str = "neuter".toList → ParseOperand X Str = some (.Gender .Neuter)) ∧
    (∀ body, IsDelimited '\"' '\"' Str body → ParseOperand X Str = some (.Text body)) ∧
    (∀ body, IsDelimited '\x7b' '\x7d' Str body →
      ParseOperand X Str = some (.VariableName body)) ∧
    (lowerCase Str ∉ operandKeywords → (¬ ∃ body, IsDelimited '\"' '\"' Str body) →
      (¬ ∃ body, IsDelimited '\x7b' '\x7d' Str body) →
      (∀ i, X.ParseInt Str = some i → ParseOperand X Str = some (.Int32 i)) ∧
      (∀ f, X.ParseInt Str = none → X.ParseFloat Str = some f →
        ParseOperand X Str = some (.Float32 f)) ∧
      (X.ParseInt Str = none → X.ParseFloat Str = none → ParseOperand X Str = none)) := by
  have e := fun (s : FString) (lit : String) (h : lit.toList.map Char.toLower = lit.toList) =>
    equalsIgnoreCase_eq_decide s lit h
  refine ⟨?_, ?_, ?_, ?_, ?_, ?_, ?_, ?_⟩
  · intro h
    apply ParseOperand_named
    unfold parseNamedOperand
    rw [e Str "true" (by decide), h]
    rfl
  · intro h
    apply ParseOperand_named
    unfold parseNamedOperand
    rw [e Str "true" (by decide), e Str "false" (by decide), h]
    rfl
  · intro h
    apply ParseOperand_named
    unfold parseNamedOperand
    rw [e Str "true" (by decide), e Str "false" (by decide),
      e Str "masculine" (by decide), h]
    rfl
  · intro h
    apply ParseOperand_named
    unfold parseNamedOperand
    rw [e Str "true" (by decide), e Str "false" (by decide),
      e Str "masculine" (by decide), e Str "feminine" (by decide), h]
    rfl
  · intro h
    apply ParseOperand_named
    unfold parseNamedOperand
    rw [e Str "true" (by decide), e Str "false" (by decide),
      e Str "masculine" (by decide), e Str "feminine" (by decide),
      e Str "neuter" (by decide), h]
    rfl
  · intro body hb
    apply ParseOperand_named
    have hm := (matchDelimited_eq_some_iff _ _ _ _).2 hb
    obtain ⟨tail, rfl, _, _⟩ := hb
    rw [List.cons_append] at hm ⊢
    rw [parseNamedOperand_of_keyword_free _
      (lowerCase_not_keyword_of_head _ _ (by decide)), hm]
  · intro body hb
    apply ParseOperand_named
    have hm := (matchDelimited_eq_some_iff _ _ _ _).2 hb
    obtain ⟨tail, rfl, _, _⟩ := hb
    rw [List.cons_append] at hm ⊢
    have hq : matchDelimited '\"' '\"' ('\x7b' :: (body ++ '\x7d' :: tail)) = none := rfl
    rw [parseNamedOperand_of_keyword_free _
      (lowerCase_not_keyword_of_head _ _ (by decide)), hq, hm]
  · intro hk hq hb
    have hn : parseNamedOperand Str = none := by
      rw [parseNamedOperand_of_keyword_free Str hk,
        (matchDelimited_eq_none_iff _ _ _).2 hq, (matchDelimited_eq_none_iff _ _ _).2 hb]
    refine ⟨?_, ?_, ?_⟩
    · intro i hi
      simp [ParseOperand, hn, hi]
    · intro f hi hf
      simp [ParseOperand, hn, hi, hf]
    · intro hi hf
      simp [ParseOperand, hn, hi, hf]

/-- C19 as stated fails: the string made of "abc" in double quotes and a line feed is not
wholly a double-quoted string (it ends with the line feed), and `ParseOperand` gives the
Text abc for it whatever the number parsers are. -/
theorem ParseOperand_reads_text_before_final_line_feed :
    whollyDelimited '\"' '\"' "\"abc\"\n".toList = false ∧
    (∀ X : Externals, ParseOperand X "\"abc\"\n".toList = some (.Text "abc".toList)) :=
  ⟨by decide, fun _ => rfl⟩

/-- C18, amended, on "&&" and on "AND": both give And. -/
theorem ParseOperator_spelling_examples :
    ParseOperator "&&".toList = .And ∧ ParseOperator "AND".toList = .And :=
  ⟨(ParseOperator_matches_spellings_ignoring_case "&&".toList).2.1 ("&&", .And) (by decide),
   (ParseOperator_matches_spellings_ignoring_case "AND".toList).1.trans (by decide)⟩

/-- C19, amended, on "TRUE", on the quoted text "hi" and on the reference to x. -/
theorem ParseOperand_rule_examples :
    ParseOperand sampleExternals "TRUE".toList = some (.Boolean true) ∧
    ParseOperand sampleExternals "\"hi\"".toList = some (.Text "hi".toList) ∧
    ParseOperand sampleExternals "\x7bx\x7d".toList = some (.VariableName "x".toList) ∧
    ParseOperand sampleExternals "12".toList = some (.Int32 12) ∧
    ParseOperand sampleExternals "foo".toList = none :=
  ⟨(ParseOperand_follows_rules_in_order sampleExternals "TRUE".toList).1 (by decide),
   (ParseOperand_follows_rules_in_order sampleExternals "\"hi\"".toList).2.2.2.2.2.1
     "hi".toList ⟨[], by decide, by decide, by decide⟩,
   (ParseOperand_follows_rules_in_order sampleExternals "\x7bx\x7d".toList).2.2.2.2.2.2.1
     "x".toList ⟨[], by decide, by decide, by decide⟩,
   by decide, by decide⟩

/-! ## GetNextNode and GetNodeByLabel -/

/-- C16: `GetNextNode` returns no node for a node without outgoing edges, the target of
the edge for a node with exactly one, and no node for a node with more than one, whatever
the targets are; it is defined for every node, so none of the cases faults. -/
theorem GetNextNode_by_edge_count (S : USUDSScript) (Node : Nat) :
    ((S.Objects Node).Edges.length = 0 → GetNextNode S Node = none) ∧
    (∀ Edge, (S.Objects Node).Edges = [Edge] → GetNextNode S Node = Edge.TargetNode) ∧
    (1 < (S.Objects Node).Edges.length → GetNextNode S Node = none) := by
  unfold GetNextNode
  refine ⟨?_, ?_, ?_⟩
  · intro h
    rw [List.length_eq_zero.1 h]
  · intro Edge h
    rw [h]
  · intro h
    match hE : (S.Objects Node).Edges, h with
    | _ :: _ :: _, _ => rfl

/-- C16 on the test script: the last Text node has no edge, the first has one, the choice
node has two. -/
theorem GetNextNode_examples :
    GetNextNode setVariableRunnerScript 10 = none ∧
    GetNextNode setVariableRunnerScript 0 = some 1 ∧
    GetNextNode setVariableRunnerScript 4 = none :=
  have h0 := GetNextNode_by_edge_count setVariableRunnerScript 10
  have h1 := GetNextNode_by_edge_count setVariableRunnerScript 0
  have h2 := GetNextNode_by_edge_count setVariableRunnerScript 4
  ⟨h0.1 (by decide), h1.2.1 ⟨some 1⟩ (by decide), h2.2.2 (by decide)⟩

/-- C17, amended: for a label that the table maps to an index that is at least zero and
below the node count, `GetNodeByLabel` returns the node stored at that index of the node
list, without fault; for a label that is not in the table it returns no node. -/
theorem GetNodeByLabel_in_range (S : USUDSScript) (Label : FName) :
    (∀ Idx : Int, S.LabelList Label = some Idx → 0 ≤ Idx → Idx < S.Nodes.length →
      ∃ Node, S.Nodes[Idx.toNat]? = some Node ∧
        GetNodeByLabel S Label = some (some Node)) ∧
    (S.LabelList Label = none → GetNodeByLabel S Label = some none) := by
  constructor
  · intro Idx hfind h0 h1
    have hlt : Idx.toNat < S.Nodes.length := by omega
    refine ⟨S.Nodes[Idx.toNat], List.getElem?_eq_getElem hlt, ?_⟩
    simp [GetNodeByLabel, hfind, h0, h1, List.getElem?_eq_getElem hlt]
  · intro hfind
    simp [GetNodeByLabel, hfind]

/-- C17, amended, on a script with the labels "start" and "back": "start" gives the node at
index 0, and the unknown label "nowhere" gives no node. -/
theorem GetNodeByLabel_examples :
    GetNodeByLabel negativeLabelScript "start".toList = some (some 0) ∧
    GetNodeByLabel negativeLabelScript "nowhere".toList = some none := by
  have h := GetNodeByLabel_in_range negativeLabelScript "start".toList
  have h2 := GetNodeByLabel_in_range negativeLabelScript "nowhere".toList
  obtain ⟨Node, hNode, hget⟩ := h.1 0 (by decide) (by decide) (by decide)
  have hN : Node = 0 := by
    have : negativeLabelScript.Nodes[(0 : Int).toNat]? = some 0 := by decide
    rw [this] at hNode
    exact (Option.some.inj hNode).symm
  rw [hN] at hget
  exact ⟨hget, h2.2 (by decide)⟩

/-- C17 as stated fails: in a script of one node whose label table maps "start" to 0 and
"back" to -1, every table index is below the node count, and the lookup of "back" indexes
the node list outside its bounds. -/
theorem GetNodeByLabel_negative_index_faults :
    negativeLabelScript.LabelList "back".toList = some (-1) ∧
    (∀ (Label : FName) (Idx : Int), negativeLabelScript.LabelList Label = some Idx →
      Idx < negativeLabelScript.Nodes.length) ∧
    GetNodeByLabel negativeLabelScript "back".toList = none := by
  refine ⟨by decide, ?_, by decide⟩
  intro Label Idx h
  simp only [negativeLabelScript] at h
  split at h
  · simp only [Option.some.injEq] at h
    subst h
    decide
  · split at h
    · simp only [Option.some.injEq] at h
      subst h
      decide
    · exact absurd h (by simp)

/-! ## FinishImport -/

theorem GetNextNode_eq_some_iff (S : USUDSScript) (Node Next : Nat) :
    GetNextNode S Node = some Next ↔ (S.Objects Node).Edges = [⟨some Next⟩] := by
  unfold GetNextNode
  constructor
  · intro h
    match hE : (S.Objects Node).Edges with
    | [] => rw [hE] at h; exact absurd h (by simp)
    | [Edge] =>
      rw [hE] at h
      simp only at h
      cases Edge with
      | mk t =>
        simp only at h
        rw [h]
    | _ :: _ :: _ => rw [hE] at h; exact absurd h (by simp)
  · intro h
    rw [h]

theorem LeadsToChoice_iff_EndsAtChoice (S : USUDSScript) (Node : Nat) :
    LeadsToChoice S Node ↔ EndsAtChoice S (GetNextNode S Node) := by
  constructor
  · intro h
    induction h with
    | direct Node Next hE hC =>
      rw [(GetNextNode_eq_some_iff S Node Next).2 hE]
      exact EndsAtChoice.here Next hC
    | skip Node Next hE hV _ ih =>
      rw [(GetNextNode_eq_some_iff S Node Next).2 hE]
      exact EndsAtChoice.skip Next hV ih
  · intro h
    generalize hx : GetNextNode S Node = x at h
    induction h generalizing Node with
    | here n hC =>
      exact LeadsToChoice.direct Node n ((GetNextNode_eq_some_iff S Node n).1 hx) hC
    | skip n hV _ ih =>
      exact LeadsToChoice.skip Node n ((GetNextNode_eq_some_iff S Node n).1 hx) hV
        (ih n rfl)

theorem EndsAtChoice_some_iff (S : USUDSScript) (n : Nat) :
    EndsAtChoice S (some n) ↔
      (S.Objects n).NodeType = .Choice ∨
        ((S.Objects n).NodeType = .SetVariable ∧ EndsAtChoice S (GetNextNode S n)) := by
  constructor
  · intro h
    cases h with
    | here _ hC => exact Or.inl hC
    | skip _ hV hE => exact Or.inr ⟨hV, hE⟩
  · rintro (hC | ⟨hV, hE⟩)
    · exact EndsAtChoice.here n hC
    · exact EndsAtChoice.skip n hV hE

theorem not_EndsAtChoice_none (S : USUDSScript) : ¬ EndsAtChoice S none := by
  intro h
  cases h

theorem skipSetVariables_spec (S : USUDSScript) (fuel : Nat) :
    ∀ (x r : Option Nat), skipSetVariables S fuel x = some r →
      ((∃ n, r = some n ∧ (S.Objects n).NodeType = .Choice) ↔ EndsAtChoice S x) := by
  induction fuel with
  | zero =>
    intro x r h
    cases x with
    | none =>
      simp only [skipSetVariables, Option.some.injEq] at h
      subst h
      simp [not_EndsAtChoice_none]
    | some n =>
      simp only [skipSetVariables] at h
      split at h
      · exact absurd h (by simp)
      · rename_i hV
        simp only [Option.some.injEq] at h
        subst h
        rw [EndsAtChoice_some_iff]
        simp [hV]
  | succ fuel ih =>
    intro x r h
    cases x with
    | none =>
      simp only [skipSetVariables, Option.some.injEq] at h
      subst h
      simp [not_EndsAtChoice_none]
    | some n =>
      simp only [skipSetVariables] at h
      split at h
      · rename_i hV
        rw [ih _ r h, EndsAtChoice_some_iff]
        simp [hV]
      · rename_i hV
        simp only [Option.some.injEq] at h
        subst h
        rw [EndsAtChoice_some_iff]
        simp [hV]

theorem SameGraph_refl (S : USUDSScript) : SameGraph S S :=
  ⟨rfl, fun _ => ⟨rfl, rfl⟩⟩

theorem SameGraph_trans {S T U : USUDSScript} (h1 : SameGraph S T) (h2 : SameGraph T U) :
    SameGraph S U :=
  ⟨h2.1.trans h1.1, fun n =>
    ⟨((h2.2 n).1).trans (h1.2 n).1, ((h2.2 n).2).trans (h1.2 n).2⟩⟩

theorem SameGraph_NotifyHasChoices (S : USUDSScript) (Node : Nat) :
    SameGraph S (NotifyHasChoices S Node) := by
  refine ⟨rfl, fun n => ?_⟩
  simp only [NotifyHasChoices]
  split <;> exact ⟨rfl, rfl⟩

theorem GetNextNode_congr {S T : USUDSScript} (h : SameGraph S T) (Node : Nat) :
    GetNextNode T Node = GetNextNode S Node := by
  unfold GetNextNode
  rw [(h.2 Node).2]

theorem skipSetVariables_congr {S T : USUDSScript} (h : SameGraph S T) (fuel : Nat) :
    ∀ x, skipSetVariables T fuel x = skipSetVariables S fuel x := by
  induction fuel with
  | zero =>
    intro x
    cases x with
    | none => rfl
    | some n => simp only [skipSetVariables, (h.2 n).1]
  | succ fuel ih =>
    intro x
    cases x with
    | none => rfl
    | some n => simp only [skipSetVariables, (h.2 n).1, GetNextNode_congr h, ih]

theorem LeadsToChoice_congr {S T : USUDSScript} (h : SameGraph S T) (Node : Nat) :
    LeadsToChoice S Node → LeadsToChoice T Node := by
  intro hl
  induction hl with
  | direct Node Next hE hC =>
    exact LeadsToChoice.direct Node Next ((h.2 Node).2.trans hE) ((h.2 Next).1.trans hC)
  | skip Node Next hE hV _ ih =>
    exact LeadsToChoice.skip Node Next ((h.2 Node).2.trans hE) ((h.2 Next).1.trans hV) ih

theorem SameGraph_symm {S T : USUDSScript} (h : SameGraph S T) : SameGraph T S :=
  ⟨h.1.symm, fun n => ⟨(h.2 n).1.symm, (h.2 n).2.symm⟩⟩

theorem finishImportNode_spec (fuel : Nat) (S T : USUDSScript) (Node : Nat)
    (h : finishImportNode fuel S Node = some T) :
    SameGraph S T ∧
      ∀ m, ((T.Objects m).bHasChoices = true ↔
        (S.Objects m).bHasChoices = true ∨
          (m = Node ∧ (S.Objects Node).NodeType = .Text ∧ LeadsToChoice S Node)) := by
  unfold finishImportNode at h
  split at h
  · rename_i hText
    cases hskip : skipSetVariables S fuel (GetNextNode S Node) with
    | none => rw [hskip] at h; exact absurd h (by simp)
    | some r =>
      rw [hskip] at h
      have hspec := skipSetVariables_spec S fuel _ r hskip
      rw [← LeadsToChoice_iff_EndsAtChoice] at hspec
      cases r with
      | none =>
        simp only [Option.some.injEq] at h
        subst h
        refine ⟨SameGraph_refl S, fun m => ?_⟩
        have hno : ¬ LeadsToChoice S Node := fun hl => by
          obtain ⟨n, hn, _⟩ := hspec.2 hl
          exact absurd hn (by simp)
        simp [hno]
      | some n =>
        simp only at h
        split at h
        · rename_i hC
          simp only [Option.some.injEq] at h
          subst h
          have hl : LeadsToChoice S Node := hspec.1 ⟨n, rfl, hC⟩
          refine ⟨SameGraph_NotifyHasChoices S Node, fun m => ?_⟩
          simp only [NotifyHasChoices]
          by_cases hm : m = Node
          · simp [hm, hText, hl]
          · simp [hm]
        · rename_i hC
          simp only [Option.some.injEq] at h
          subst h
          refine ⟨SameGraph_refl S, fun m => ?_⟩
          have hno : ¬ LeadsToChoice S Node := fun hl => by
            obtain ⟨n', hn, hC'⟩ := hspec.2 hl
            simp only [Option.some.injEq] at hn
            subst hn
            exact hC hC'
          simp [hno]
  · simp only [Option.some.injEq] at h
    subst h
    rename_i hText
    exact ⟨SameGraph_refl S, fun m => by simp [hText]⟩

theorem finishImportLoop_spec (fuel : Nat) (Visit : List Nat) :
    ∀ (S T : USUDSScript), finishImportLoop fuel S Visit = some T →
      SameGraph S T ∧
        ∀ m, ((T.Objects m).bHasChoices = true ↔
          (S.Objects m).bHasChoices = true ∨
            (m ∈ Visit ∧ (S.Objects m).NodeType = .Text ∧ LeadsToChoice S m)) := by
  induction Visit with
  | nil =>
    intro S T h
    simp only [finishImportLoop, Option.some.injEq] at h
    subst h
    exact ⟨SameGraph_refl S, fun m => by simp⟩
  | cons Node rest ih =>
    intro S T h
    rw [finishImportLoop] at h
    cases hnode : finishImportNode fuel S Node with
    | none => rw [hnode] at h; exact absurd h (by simp)
    | some S1 =>
      rw [hnode] at h
      simp only at h
      obtain ⟨hg1, hf1⟩ := finishImportNode_spec fuel S S1 Node hnode
      obtain ⟨hg2, hf2⟩ := ih S1 T h
      refine ⟨SameGraph_trans hg1 hg2, fun m => ?_⟩
      rw [hf2 m, hf1 m, (hg1.2 m).1]
      have hiff : LeadsToChoice S1 m ↔ LeadsToChoice S m :=
        ⟨LeadsToChoice_congr (SameGraph_symm hg1) m, LeadsToChoice_congr hg1 m⟩
      rw [hiff]
      constructor
      · rintro ((hflag | ⟨rfl, hT, hL⟩) | ⟨hmem, hT, hL⟩)
        · exact Or.inl hflag
        · exact Or.inr ⟨List.mem_cons_self _ _, hT, hL⟩
        · exact Or.inr ⟨List.mem_cons_of_mem _ hmem, hT, hL⟩
      · rintro (hflag | ⟨hmem, hT, hL⟩)
        · exact Or.inl (Or.inl hflag)
        · rcases List.mem_cons.1 hmem with rfl | hmem
          · exact Or.inl (Or.inr ⟨rfl, hT, hL⟩)
          · exact Or.inr ⟨hmem, hT, hL⟩

theorem finishImportLoop_returns (fuel : Nat) (Visit : List Nat) :
    ∀ S : USUDSScript,
      (∀ Node ∈ Visit, (S.Objects Node).NodeType = .Text →
        (skipSetVariables S fuel (GetNextNode S Node)).isSome = true) →
      ∃ T, finishImportLoop fuel S Visit = some T := by
  induction Visit with
  | nil => intro S _; exact ⟨S, rfl⟩
  | cons Node rest ih =>
    intro S hwalk
    have hnode : ∃ S1, finishImportNode fuel S Node = some S1 := by
      unfold finishImportNode
      split
      · rename_i hText
        have hs := hwalk Node (List.mem_cons_self _ _) hText
        cases hskip : skipSetVariables S fuel (GetNextNode S Node) with
        | none => rw [hskip] at hs; exact absurd hs (by simp)
        | some r =>
          cases r with
          | none => exact ⟨S, rfl⟩
          | some n =>
            simp only
            split
            · exact ⟨_, rfl⟩
            · exact ⟨_, rfl⟩
      · exact ⟨S, rfl⟩
    obtain ⟨S1, hS1⟩ := hnode
    have hg := (finishImportNode_spec fuel S S1 Node hS1).1
    have hrest := ih S1 (fun n hn hT => by
      rw [skipSetVariables_congr hg, GetNextNode_congr hg]
      exact hwalk n (List.mem_cons_of_mem _ hn) ((hg.2 n).1 ▸ hT))
    obtain ⟨T, hT⟩ := hrest
    exact ⟨T, by rw [finishImportLoop, hS1]; exact hT⟩

/-- C15, amended: when every lookahead walk from a Text node of the node list ends within
the allowed number of steps, `FinishImport` returns, and afterwards every Text node of the
node list has its flag set exactly when the flag was set before or the walk from it along
single outgoing edges, skipping only SetVariable nodes, first reaches a Choice node; so for
a Text node whose flag was unset before, the flag is set exactly when the walk reaches a
Choice node, and it is false when the walk ends at the end of the graph or at any other
node. -/
theorem FinishImport_flags_text_nodes (fuel : Nat) (S : USUDSScript)
    (hwalk : ∀ Node ∈ S.Nodes, (S.Objects Node).NodeType = .Text →
      (skipSetVariables S fuel (GetNextNode S Node)).isSome = true) :
    ∃ T, FinishImport fuel S = some T ∧
      ∀ Node ∈ S.Nodes, (S.Objects Node).NodeType = .Text →
        (((T.Objects Node).bHasChoices = true ↔
          (S.Objects Node).bHasChoices = true ∨ LeadsToChoice S Node) ∧
        ((S.Objects Node).bHasChoices = false →
          ((T.Objects Node).bHasChoices = true ↔ LeadsToChoice S Node))) := by
  obtain ⟨T, hT⟩ := finishImportLoop_returns fuel S.Nodes S hwalk
  refine ⟨T, hT, fun Node hmem hText => ?_⟩
  have hflag := (finishImportLoop_spec fuel S.Nodes S T hT).2 Node
  have hiff : (T.Objects Node).bHasChoices = true ↔
      (S.Objects Node).bHasChoices = true ∨ LeadsToChoice S Node := by
    rw [hflag]
    constructor
    · rintro (h | ⟨_, _, h⟩)
      · exact Or.inl h
      · exact Or.inr h
    · rintro (h | h)
      · exact Or.inl h
      · exact Or.inr ⟨hmem, hText, h⟩
  refine ⟨hiff, fun hunset => ?_⟩
  rw [hiff, hunset]
  simp

/-- C15, amended, on the test script, each walk allowed two steps: `FinishImport` returns,
"NPC: Wotcha" (address 2), which a set node separates from the choice node, is flagged,
and "Player: Hello" (address 0), which a set node separates from a Text node, is not. -/
theorem FinishImport_on_test_script :
    ∃ T, FinishImport 2 setVariableRunnerScript = some T ∧
      (T.Objects 2).bHasChoices = true ∧ (T.Objects 0).bHasChoices = false := by
  obtain ⟨T, hT, hflags⟩ :=
    FinishImport_flags_text_nodes 2 setVariableRunnerScript (by decide)
  refine ⟨T, hT, ?_, ?_⟩
  · apply ((hflags 2 (by decide) (by decide)).2 (by decide)).2
    exact LeadsToChoice.skip 2 3 (by decide) (by decide)
      (LeadsToChoice.direct 3 4 (by decide) (by decide))
  · have hiff := (hflags 0 (by decide) (by decide)).2 (by decide)
    have hno : ¬ LeadsToChoice setVariableRunnerScript 0 := by
      rw [LeadsToChoice_iff_EndsAtChoice]
      have hskip : skipSetVariables setVariableRunnerScript 2
          (GetNextNode setVariableRunnerScript 0) = some (some 2) := by decide
      rw [← skipSetVariables_spec setVariableRunnerScript 2 _ _ hskip]
      rintro ⟨n, hn, hC⟩
      simp only [Option.some.injEq] at hn
      subst hn
      exact absurd hC (by decide)
    cases hb : (T.Objects 0).bHasChoices with
    | false => rfl
    | true => exact absurd (hiff.1 hb) hno

/-- C15 as stated fails: in a script whose one Text node has no edge and has its flag set
already, the walk ends at the end of the graph, `FinishImport` returns, and the flag is
still set afterwards. -/
theorem FinishImport_keeps_flag_set_before :
    0 ∈ flaggedTextScript.Nodes ∧
    (flaggedTextScript.Objects 0).NodeType = .Text ∧
    GetNextNode flaggedTextScript 0 = none ∧
    ¬ LeadsToChoice flaggedTextScript 0 ∧
    (FinishImport 0 flaggedTextScript).map (fun T => (T.Objects 0).bHasChoices) =
      some true := by
  refine ⟨by decide, by decide, by decide, ?_, by decide⟩
  intro h
  cases h with
  | direct _ Next hE _ => simp [flaggedTextScript] at hE
  | skip _ Next hE _ _ => simp [flaggedTextScript] at hE

/-! ## Operands keep their order -/

theorem operandItems_append_operator (X : Externals) (Queue : List FSUDSExpressionItem)
    (t : ESUDSExpressionItemType) (ht : t ≠ .Operand) :
    operandItems (Queue ++ [X.operatorItem t]) = operandItems Queue := by
  simp [operandItems, List.filter_append, Externals.operatorItem, ht]

theorem operandItems_append_operand (Queue : List FSUDSExpressionItem) (v : FSUDSValue) :
    operandItems (Queue ++ [operandItem v]) = operandItems Queue ++ [operandItem v] := by
  simp [operandItems, List.filter_append, operandItem]

theorem popApplied_operandItems (X : Externals) (op : ESUDSExpressionItemType) (b : Bool)
    (Stack : List ESUDSExpressionItemType) :
    ∀ Queue, ESUDSExpressionItemType.Operand ∉ Stack →
      operandItems (popApplied X op b Stack Queue).2 = operandItems Queue ∧
        ESUDSExpressionItemType.Operand ∉ (popApplied X op b Stack Queue).1 := by
  induction Stack with
  | nil => intro Queue hs; exact ⟨rfl, hs⟩
  | cons Top Stack ih =>
    intro Queue hs
    have hTop : Top ≠ .Operand := fun e => hs (e ▸ List.mem_cons_self _ _)
    have hRest : ESUDSExpressionItemType.Operand ∉ Stack :=
      fun m => hs (List.mem_cons_of_mem _ m)
    by_cases hc : appliesBefore X Top op b = true
    · rw [popApplied, if_pos hc]
      have h := ih (Queue ++ [X.operatorItem Top]) hRest
      rw [operandItems_append_operator X Queue Top hTop] at h
      exact h
    · rw [popApplied, if_neg hc]
      exact ⟨rfl, hs⟩

theorem popToLParens_operandItems (X : Externals) (Stack : List ESUDSExpressionItemType) :
    ∀ Queue, ESUDSExpressionItemType.Operand ∉ Stack →
      operandItems (popToLParens X Stack Queue).2 = operandItems Queue ∧
        ESUDSExpressionItemType.Operand ∉ (popToLParens X Stack Queue).1 := by
  induction Stack with
  | nil => intro Queue hs; exact ⟨rfl, hs⟩
  | cons Top Stack ih =>
    intro Queue hs
    have hTop : Top ≠ .Operand := fun e => hs (e ▸ List.mem_cons_self _ _)
    have hRest : ESUDSExpressionItemType.Operand ∉ Stack :=
      fun m => hs (List.mem_cons_of_mem _ m)
    by_cases hne : Top = .LParens
    · subst hne
      simpa [popToLParens] using hs
    · rw [popToLParens, if_pos (by simpa using hne)]
      have h := ih (Queue ++ [X.operatorItem Top]) hRest
      rw [operandItems_append_operator X Queue Top hTop] at h
      exact h

theorem finishUp_operandItems (X : Externals) (Stack : List ESUDSExpressionItemType) :
    ∀ st : ParseState, ESUDSExpressionItemType.Operand ∉ Stack →
      operandItems (finishUp X st Stack).Queue = operandItems st.Queue := by
  induction Stack with
  | nil => intro st _; simp [finishUp]
  | cons Top Stack ih =>
    intro st hs
    have hTop : Top ≠ .Operand := fun e => hs (e ▸ List.mem_cons_self _ _)
    have hRest : ESUDSExpressionItemType.Operand ∉ Stack :=
      fun m => hs (List.mem_cons_of_mem _ m)
    rw [finishUp]
    split
    · rfl
    · rw [ih _ hRest]
      exact operandItems_append_operator X st.Queue Top hTop

theorem parseTokens_keeps_errors (X : Externals) (Tokens : List FString) :
    ∀ st : ParseState, st.bErrors = true → (parseTokens X st Tokens).bErrors = true := by
  induction Tokens with
  | nil => intro st h; exact h
  | cons Str rest ih =>
    intro st h
    have hstep : (processToken X st Str).1.bErrors = true := by
      by_cases hL : ParseOperator Str = .LParens
      · rw [processToken_lparens X st Str hL]; exact h
      · by_cases hR : ParseOperator Str = .RParens
        · rw [processToken_rparens X st Str hR]
          rcases popToLParens X st.OperatorStack st.Queue with ⟨Stack, Queue⟩
          cases Stack with
          | nil => rfl
          | cons _ _ => exact h
        · by_cases hN : ParseOperator Str = .Null
          · cases hv : ParseOperand X Str with
            | none => rw [processToken_unrecognised X st Str hN hv]
            | some v => rw [processToken_operand X st Str v hN hv]; exact h
          · rw [processToken_operator X st Str _ rfl hN hL hR]; exact h
    rw [parseTokens_cons]
    split
    · exact ih _ hstep
    · exact hstep

theorem parseTokens_operandItems (X : Externals) (Tokens : List FString) :
    ∀ st : ParseState, ESUDSExpressionItemType.Operand ∉ st.OperatorStack →
      (parseTokens X st Tokens).bErrors = false →
      operandItems (parseTokens X st Tokens).Queue =
          operandItems st.Queue ++ (operandValues X Tokens).map operandItem ∧
        ESUDSExpressionItemType.Operand ∉ (parseTokens X st Tokens).OperatorStack ∧
        ∀ Str ∈ Tokens, ParseOperator Str = .Null → (ParseOperand X Str).isSome = true := by
  induction Tokens with
  | nil =>
    intro st hs _
    simp [parseTokens_nil, operandValues, hs]
  | cons Str rest ih =>
    intro st hs hfin
    rw [parseTokens_cons] at hfin ⊢
    by_cases hL : ParseOperator Str = .LParens
    · have hNn : ParseOperator Str ≠ .Null := by rw [hL]; decide
      rw [processToken_lparens X st Str hL] at hfin ⊢
      simp only [if_true] at hfin ⊢
      have hs1 : ESUDSExpressionItemType.Operand ∉
          ESUDSExpressionItemType.LParens :: st.OperatorStack := by
        intro m
        rcases List.mem_cons.1 m with e | m
        · exact absurd e (by decide)
        · exact hs m
      obtain ⟨h1, h2, h3⟩ := ih _ hs1 hfin
      refine ⟨?_, h2, ?_⟩
      · rw [h1]
        simp [operandValues, hNn]
      · intro t ht hn
        rcases List.mem_cons.1 ht with rfl | ht
        · exact absurd hn hNn
        · exact h3 t ht hn
    · by_cases hR : ParseOperator Str = .RParens
      · have hNn : ParseOperator Str ≠ .Null := by rw [hR]; decide
        rw [processToken_rparens X st Str hR] at hfin ⊢
        have hp := popToLParens_operandItems X st.OperatorStack st.Queue hs
        rcases hpop : popToLParens X st.OperatorStack st.Queue with ⟨Stack, Queue⟩
        rw [hpop] at hp hfin
        cases Stack with
        | nil =>
          simp only [Bool.false_eq_true, if_false] at hfin
          exact absurd hfin (by simp)
        | cons Top Rest =>
          simp only [if_true] at hfin ⊢
          have hs1 : ESUDSExpressionItemType.Operand ∉ Rest :=
            fun m => hp.2 (List.mem_cons_of_mem _ m)
          obtain ⟨h1, h2, h3⟩ := ih _ hs1 hfin
          refine ⟨?_, h2, ?_⟩
          · rw [h1]
            simp only at hp
            rw [hp.1]
            simp [operandValues, hNn]
          · intro t ht hn
            rcases List.mem_cons.1 ht with rfl | ht
            · exact absurd hn hNn
            · exact h3 t ht hn
      · by_cases hN : ParseOperator Str = .Null
        · cases hv : ParseOperand X Str with
          | none =>
            rw [processToken_unrecognised X st Str hN hv] at hfin
            simp only [if_true] at hfin
            rw [parseTokens_keeps_errors X rest _ rfl] at hfin
            exact absurd hfin (by simp)
          | some v =>
            rw [processToken_operand X st Str v hN hv] at hfin ⊢
            simp only [if_true] at hfin ⊢
            obtain ⟨h1, h2, h3⟩ := ih
              { st with bParsedSomething := true, Queue := st.Queue ++ [operandItem v] }
              hs hfin
            refine ⟨?_, h2, ?_⟩
            · rw [h1]
              simp only
              rw [operandItems_append_operand]
              simp [operandValues, hN, hv]
            · intro t ht hn
              rcases List.mem_cons.1 ht with rfl | ht
              · rw [hv]; rfl
              · exact h3 t ht hn
        · rw [processToken_operator X st Str _ rfl hN hL hR] at hfin ⊢
          simp only [if_true] at hfin ⊢
          have hp := popApplied_operandItems X (ParseOperator Str) (ParseOperator Str != .Not)
            st.OperatorStack st.Queue hs
          have hs1 : ESUDSExpressionItemType.Operand ∉ ParseOperator Str ::
              (popApplied X (ParseOperator Str) (ParseOperator Str != .Not)
                st.OperatorStack st.Queue).1 := by
            intro m
            rcases List.mem_cons.1 m with e | m
            · exact ParseOperator_ne_Operand Str e.symm
            · exact hp.2 m
          obtain ⟨h1, h2, h3⟩ := ih _ hs1 hfin
          refine ⟨?_, h2, ?_⟩
          · rw [h1]
            simp only
            rw [hp.1]
            simp [operandValues, hN]
          · intro t ht hn
            rcases List.mem_cons.1 ht with rfl | ht
            · exact absurd hn hN
            · exact h3 t ht hn

/-- C21: for every source string on which `ParseFromString` returns true, the operand
items of the compiled queue are the values of the operand tokens of the source, each once
and in the same order, and every token that is not an operator is among them: no operand
is reordered, dropped or duplicated. -/
theorem compiled_queue_keeps_operands_in_order (X : Externals) (Expression : FString)
    (hvalid : (ParseFromString X Expression).bIsValid = true) :
    operandItems (ParseFromString X Expression).Queue =
      (operandValues X (tokenize Expression)).map operandItem ∧
    ∀ Str ∈ tokenize Expression, ParseOperator Str = .Null →
      (ParseOperand X Str).isSome = true := by
  simp only [ParseFromString, compileTokens, Bool.and_eq_true, Bool.not_eq_true'] at hvalid
  have herr : (parseTokens X initialParseState (tokenize Expression)).bErrors = false := by
    cases hb : (parseTokens X initialParseState (tokenize Expression)).bErrors with
    | false => rfl
    | true =>
      rw [finishUp_keeps_errors X _ _ hb] at hvalid
      exact absurd hvalid.2 (by simp)
  obtain ⟨h1, h2, h3⟩ := parseTokens_operandItems X (tokenize Expression) initialParseState
    (by simp [initialParseState]) herr
  refine ⟨?_, h3⟩
  simp only [ParseFromString, compileTokens]
  rw [finishUp_operandItems X _ _ h2, h1]
  simp [initialParseState, operandItems]

/-- C21 on "(1 + 2) * 3": the operands of the queue are 1, 2, 3. -/
theorem compiled_queue_keeps_operands_example :
    operandItems (ParseFromString sampleExternals "(1 + 2) * 3".toList).Queue =
      [operandItem (.Int32 1), operandItem (.Int32 2), operandItem (.Int32 3)] :=
  (compiled_queue_keeps_operands_in_order sampleExternals "(1 + 2) * 3".toList
    (by decide)).1.trans (by decide)

/-! ## What FinishImport leaves unchanged -/

theorem NotifyHasChoices_eq_self (S : USUDSScript) (Node : Nat)
    (h : (S.Objects Node).bHasChoices = true) : NotifyHasChoices S Node = S := by
  cases S with
  | mk Objects Nodes HeaderNodes LabelList HeaderLabelList Speakers =>
    simp only [NotifyHasChoices, USUDSScript.mk.injEq, and_true]
    funext n
    split
    · rename_i hn
      subst hn
      simp only at h
      cases hO : Objects n with
      | mk t e f =>
        rw [hO] at h
        simp only at h
        rw [h]
    · rfl

theorem finishImportNode_frame (fuel : Nat) (S T : USUDSScript) (Node : Nat)
    (h : finishImportNode fuel S Node = some T) :
    T.HeaderNodes = S.HeaderNodes ∧ T.LabelList = S.LabelList ∧
      T.HeaderLabelList = S.HeaderLabelList ∧ T.Speakers = S.Speakers := by
  unfold finishImportNode at h
  split at h
  · split at h
    · exact absurd h (by simp)
    · simp only [Option.some.injEq] at h
      subst h
      exact ⟨rfl, rfl, rfl, rfl⟩
    · split at h
      · simp only [Option.some.injEq] at h
        subst h
        exact ⟨rfl, rfl, rfl, rfl⟩
      · simp only [Option.some.injEq] at h
        subst h
        exact ⟨rfl, rfl, rfl, rfl⟩
  · simp only [Option.some.injEq] at h
    subst h
    exact ⟨rfl, rfl, rfl, rfl⟩

theorem finishImportLoop_frame (fuel : Nat) (Visit : List Nat) :
    ∀ (S T : USUDSScript), finishImportLoop fuel S Visit = some T →
      T.HeaderNodes = S.HeaderNodes ∧ T.LabelList = S.LabelList ∧
        T.HeaderLabelList = S.HeaderLabelList ∧ T.Speakers = S.Speakers := by
  induction Visit with
  | nil =>
    intro S T h
    simp only [finishImportLoop, Option.some.injEq] at h
    subst h
    exact ⟨rfl, rfl, rfl, rfl⟩
  | cons Node rest ih =>
    intro S T h
    rw [finishImportLoop] at h
    cases hnode : finishImportNode fuel S Node with
    | none => rw [hnode] at h; exact absurd h (by simp)
    | some S1 =>
      rw [hnode] at h
      simp only at h
      obtain ⟨a1, a2, a3, a4⟩ := finishImportNode_frame fuel S S1 Node hnode
      obtain ⟨b1, b2, b3, b4⟩ := ih S1 T h
      exact ⟨b1.trans a1, b2.trans a2, b3.trans a3, b4.trans a4⟩

theorem finishImportLoop_fixed (fuel : Nat) (Visit : List Nat) (U : USUDSScript)
    (hwalk : ∀ Node ∈ Visit, (U.Objects Node).NodeType = .Text →
      (skipSetVariables U fuel (GetNextNode U Node)).isSome = true)
    (hflag : ∀ Node ∈ Visit, (U.Objects Node).NodeType = .Text → LeadsToChoice U Node →
      (U.Objects Node).bHasChoices = true) :
    finishImportLoop fuel U Visit = some U := by
  induction Visit with
  | nil => rfl
  | cons Node rest ih =>
    have hnode : finishImportNode fuel U Node = some U := by
      unfold finishImportNode
      split
      · rename_i hText
        have hs := hwalk Node (List.mem_cons_self _ _) hText
        cases hskip : skipSetVariables U fuel (GetNextNode U Node) with
        | none => rw [hskip] at hs; exact absurd hs (by simp)
        | some r =>
          have hspec := skipSetVariables_spec U fuel _ r hskip
          rw [← LeadsToChoice_iff_EndsAtChoice] at hspec
          cases r with
          | none => rfl
          | some n =>
            simp only
            split
            · rename_i hC
              rw [NotifyHasChoices_eq_self U Node
                (hflag Node (List.mem_cons_self _ _) hText (hspec.1 ⟨n, rfl, hC⟩))]
            · rfl
      · rfl
    rw [finishImportLoop, hnode]
    exact ih (fun n hn => hwalk n (List.mem_cons_of_mem _ hn))
      (fun n hn => hflag n (List.mem_cons_of_mem _ hn))

/-- C22: when every lookahead walk ends within the allowed number of steps, `FinishImport`
returns a script with the same node list, header node list, label tables and speaker list
and with the same type and edges for every node object; a flag that was set is still
set; a flag differs only on a Text node of the node list, where it went from unset to set;
and `FinishImport` on the result returns that same result. -/
theorem FinishImport_changes_only_flags (fuel : Nat) (S : USUDSScript)
    (hwalk : ∀ Node ∈ S.Nodes, (S.Objects Node).NodeType = .Text →
      (skipSetVariables S fuel (GetNextNode S Node)).isSome = true) :
    ∃ T, FinishImport fuel S = some T ∧
      T.Nodes = S.Nodes ∧ T.HeaderNodes = S.HeaderNodes ∧ T.LabelList = S.LabelList ∧
      T.HeaderLabelList = S.HeaderLabelList ∧ T.Speakers = S.Speakers ∧
      (∀ n, (T.Objects n).NodeType = (S.Objects n).NodeType ∧
        (T.Objects n).Edges = (S.Objects n).Edges) ∧
      (∀ n, (S.Objects n).bHasChoices = true → (T.Objects n).bHasChoices = true) ∧
      (∀ n, (T.Objects n).bHasChoices ≠ (S.Objects n).bHasChoices →
        n ∈ S.Nodes ∧ (S.Objects n).NodeType = .Text ∧
          (S.Objects n).bHasChoices = false ∧ (T.Objects n).bHasChoices = true) ∧
      FinishImport fuel T = some T := by
  obtain ⟨T, hT⟩ := finishImportLoop_returns fuel S.Nodes S hwalk
  obtain ⟨hgraph, hflags⟩ := finishImportLoop_spec fuel S.Nodes S T hT
  obtain ⟨f1, f2, f3, f4⟩ := finishImportLoop_frame fuel S.Nodes S T hT
  refine ⟨T, hT, hgraph.1, f1, f2, f3, f4, hgraph.2, ?_, ?_, ?_⟩
  · intro n h
    exact (hflags n).2 (Or.inl h)
  · intro n hne
    cases hS : (S.Objects n).bHasChoices with
    | true =>
      exact absurd (((hflags n).2 (Or.inl hS)).trans hS.symm) hne
    | false =>
      cases hTn : (T.Objects n).bHasChoices with
      | false => rw [hS, hTn] at hne; exact absurd rfl hne
      | true =>
        rcases (hflags n).1 hTn with h | ⟨hmem, hText, _⟩
        · rw [hS] at h; exact absurd h (by simp)
        · exact ⟨hmem, hText, rfl, rfl⟩
  · unfold FinishImport
    rw [hgraph.1]
    apply finishImportLoop_fixed
    · intro Node hmem hText
      rw [skipSetVariables_congr hgraph, GetNextNode_congr hgraph]
      exact hwalk Node hmem ((hgraph.2 Node).1 ▸ hText)
    · intro Node hmem hText hL
      exact (hflags Node).2 (Or.inr ⟨hmem, (hgraph.2 Node).1 ▸ hText,
        LeadsToChoice_congr (SameGraph_symm hgraph) Node hL⟩)

/-- C22 on the test script, each walk allowed two steps: the node list is the same after,
the flag of "NPC: Wotcha" (address 2) is the only kind of change, and a second run returns
the same script. -/
theorem FinishImport_frame_on_test_script :
    ∃ T, FinishImport 2 setVariableRunnerScript = some T ∧
      T.Nodes = [0, 1, 2, 3, 4, 5, 6, 7, 8, 9, 10] ∧
      (T.Objects 2).Edges = [⟨some 3⟩] ∧
      FinishImport 2 T = some T := by
  obtain ⟨T, hT, hN, _, _, _, _, hg, _, _, hfix⟩ :=
    FinishImport_changes_only_flags 2 setVariableRunnerScript (by decide)
  exact ⟨T, hT, hN, (hg 2).2, hfix⟩

/-! ## FinishImport terminates -/

theorem mem_visitedSetVariables (S : USUDSScript) (fuel : Nat) :
    ∀ (x : Option Nat) (m : Nat), m ∈ visitedSetVariables S fuel x →
      ∃ k, x = some k ∧ (S.Objects k).NodeType = .SetVariable ∧
        Relation.ReflTransGen (SetVariableStep S) k m := by
  induction fuel with
  | zero =>
    intro x m hm
    cases x with
    | none => simp [visitedSetVariables] at hm
    | some n =>
      simp only [visitedSetVariables] at hm
      split at hm
      · rename_i hV
        simp only [List.mem_singleton] at hm
        subst hm
        exact ⟨m, rfl, hV, Relation.ReflTransGen.refl⟩
      · simp at hm
  | succ fuel ih =>
    intro x m hm
    cases x with
    | none => simp [visitedSetVariables] at hm
    | some n =>
      simp only [visitedSetVariables] at hm
      split at hm
      · rename_i hV
        rcases List.mem_cons.1 hm with rfl | hrest
        · exact ⟨m, rfl, hV, Relation.ReflTransGen.refl⟩
        · obtain ⟨k, hk, _, hreach⟩ := ih _ m hrest
          exact ⟨n, rfl, hV, Relation.ReflTransGen.head
            ⟨hV, (GetNextNode_eq_some_iff S n k).1 hk⟩ hreach⟩
      · simp at hm

theorem visitedSetVariables_nodup (S : USUDSScript) (fuel : Nat) :
    ∀ x : Option Nat, (∀ v ∈ visitedSetVariables S fuel x, ¬ OnSetVariableCycle S v) →
      (visitedSetVariables S fuel x).Nodup := by
  induction fuel with
  | zero =>
    intro x _
    cases x with
    | none => simp [visitedSetVariables]
    | some n =>
      simp only [visitedSetVariables]
      split <;> simp
  | succ fuel ih =>
    intro x hfree
    cases x with
    | none => simp [visitedSetVariables]
    | some n =>
      simp only [visitedSetVariables] at hfree ⊢
      split
      · rename_i hV
        rw [if_pos hV] at hfree
        refine List.nodup_cons.2 ⟨?_, ih _ (fun v hv => hfree v (List.mem_cons_of_mem _ hv))⟩
        intro hmem
        obtain ⟨k, hk, _, hreach⟩ := mem_visitedSetVariables S fuel _ n hmem
        exact hfree n (List.mem_cons_self _ _)
          (Relation.TransGen.head'
            ⟨hV, (GetNextNode_eq_some_iff S n k).1 hk⟩ hreach)
      · simp

theorem visitedSetVariables_length_of_none (S : USUDSScript) (fuel : Nat) :
    ∀ x : Option Nat, skipSetVariables S fuel x = none →
      (visitedSetVariables S fuel x).length = fuel + 1 := by
  induction fuel with
  | zero =>
    intro x h
    cases x with
    | none => simp [skipSetVariables] at h
    | some n =>
      simp only [skipSetVariables] at h
      simp only [visitedSetVariables]
      split at h
      · rename_i hV
        rw [if_pos hV]
        rfl
      · exact absurd h (by simp)
  | succ fuel ih =>
    intro x h
    cases x with
    | none => simp [skipSetVariables] at h
    | some n =>
      simp only [skipSetVariables] at h
      simp only [visitedSetVariables]
      split at h
      · rename_i hV
        rw [if_pos hV, List.length_cons, ih _ h]
      · exact absurd h (by simp)

theorem nodup_length_le_of_lt (N : Nat) (l : List Nat) (hnodup : l.Nodup)
    (hlt : ∀ v ∈ l, v < N) : l.length ≤ N := by
  have hsub : l.toFinset ⊆ Finset.range N := by
    intro v hv
    exact Finset.mem_range.2 (hlt v (List.mem_toFinset.1 hv))
  have hcard := Finset.card_le_card hsub
  rwa [List.toFinset_card_of_nodup hnodup, Finset.card_range] at hcard

theorem reachable_lt (S : USUDSScript) (N : Nat)
    (hclosed : ∀ n m, n < N → SingleEdgeStep S n m → m < N) (n m : Nat) (hn : n < N)
    (hreach : Relation.ReflTransGen (SingleEdgeStep S) n m) : m < N := by
  induction hreach with
  | refl => exact hn
  | tail _ hstep ih => exact hclosed _ _ ih hstep

theorem visitedSetVariables_reachable (S : USUDSScript) (fuel t m : Nat)
    (hm : m ∈ visitedSetVariables S fuel (GetNextNode S t)) :
    Relation.ReflTransGen (SingleEdgeStep S) t m := by
  obtain ⟨k, hk, _, hreach⟩ := mem_visitedSetVariables S fuel _ m hm
  exact Relation.ReflTransGen.head ((GetNextNode_eq_some_iff S t k).1 hk)
    (Relation.ReflTransGen.mono (fun _ _ h => h.2) hreach)

theorem skipSetVariables_ends (S : USUDSScript) (N t : Nat) (ht : t < N)
    (hclosed : ∀ n m, n < N → SingleEdgeStep S n m → m < N)
    (hfree : ∀ v, Relation.ReflTransGen (SingleEdgeStep S) t v → ¬ OnSetVariableCycle S v) :
    (skipSetVariables S N (GetNextNode S t)).isSome = true := by
  cases hskip : skipSetVariables S N (GetNextNode S t) with
  | some r => rfl
  | none =>
    have hlen := visitedSetVariables_length_of_none S N _ hskip
    have hnodup := visitedSetVariables_nodup S N (GetNextNode S t)
      (fun v hv => hfree v (visitedSetVariables_reachable S N t v hv))
    have hle := nodup_length_le_of_lt N _ hnodup
      (fun v hv => reachable_lt S N hclosed t v ht (visitedSetVariables_reachable S N t v hv))
    omega

theorem skipSetVariables_succ (S : USUDSScript) (fuel : Nat) :
    ∀ (x r : Option Nat), skipSetVariables S fuel x = some r →
      skipSetVariables S (fuel + 1) x = some r := by
  induction fuel with
  | zero =>
    intro x r h
    cases x with
    | none => simpa [skipSetVariables] using h
    | some n =>
      simp only [skipSetVariables] at h ⊢
      split at h
      · exact absurd h (by simp)
      · rename_i hV
        rw [if_neg hV]
        exact h
  | succ fuel ih =>
    intro x r h
    cases x with
    | none => simpa [skipSetVariables] using h
    | some n =>
      simp only [skipSetVariables] at h ⊢
      split at h
      · rename_i hV
        rw [if_pos hV]
        exact ih _ r h
      · rename_i hV
        rw [if_neg hV]
        exact h

theorem skipSetVariables_mono (S : USUDSScript) (fuel fuel2 : Nat) (hle : fuel ≤ fuel2)
    (x r : Option Nat) (h : skipSetVariables S fuel x = some r) :
    skipSetVariables S fuel2 x = some r := by
  induction hle with
  | refl => exact h
  | step _ ih => exact skipSetVariables_succ S _ x r ih

theorem finishImportNode_mono (S T : USUDSScript) (fuel fuel2 Node : Nat)
    (hle : fuel ≤ fuel2) (h : finishImportNode fuel S Node = some T) :
    finishImportNode fuel2 S Node = some T := by
  unfold finishImportNode at h ⊢
  split
  · rename_i hText
    rw [if_pos hText] at h
    cases hskip : skipSetVariables S fuel (GetNextNode S Node) with
    | none => rw [hskip] at h; exact absurd h (by simp)
    | some r =>
      rw [hskip] at h
      rw [skipSetVariables_mono S fuel fuel2 hle _ r hskip]
      exact h
  · rename_i hText
    rw [if_neg hText] at h
    exact h

theorem finishImportLoop_mono (fuel fuel2 : Nat) (hle : fuel ≤ fuel2) (Visit : List Nat) :
    ∀ S T : USUDSScript, finishImportLoop fuel S Visit = some T →
      finishImportLoop fuel2 S Visit = some T := by
  induction Visit with
  | nil => intro S T h; exact h
  | cons Node rest ih =>
    intro S T h
    simp only [finishImportLoop] at h ⊢
    cases hnode : finishImportNode fuel S Node with
    | none => rw [hnode] at h; exact absurd h (by simp)
    | some S1 =>
      rw [hnode] at h
      rw [finishImportNode_mono S S1 fuel fuel2 Node hle hnode]
      exact ih S1 T h

theorem not_onSetVariableCycle_backJumpScript (v : Nat) :
    ¬ OnSetVariableCycle backJumpScript v := by
  intro h
  obtain ⟨b, ⟨hV, hE⟩, hback⟩ := Relation.TransGen.head'_iff.1 h
  match v, hV, hE, hback with
  | 0, hV, _, _ => exact absurd hV (by decide)
  | 1, _, hE, hback =>
    have hb : b = 0 := by
      simp only [SingleEdgeStep, backJumpScript, plainNode, List.map_cons, List.map_nil,
        List.cons.injEq, FSUDSScriptEdge.mk.injEq, Option.some.injEq, and_true] at hE
      exact hE.symm
    subst hb
    rcases Relation.ReflTransGen.cases_head hback with h01 | ⟨c, ⟨hV0, _⟩, _⟩
    · exact absurd h01 (by decide)
    · exact absurd hV0 (by decide)
  | n + 2, hV, _, _ => exact absurd hV (by simp [backJumpScript, plainNode])

/-- C23: on a finite script graph (all nodes of the list and all targets of single edges
lie below `N`) in which no node reachable from a Text node of the list by single-edge
steps lies on a cycle of single-edge SetVariable nodes, `FinishImport` returns: `N`
iterations are enough for every lookahead walk, more iterations give the same script, and
the walk from each Text node stands on each SetVariable node at most once. Cycles through
other nodes are not excluded by the hypothesis. -/
theorem FinishImport_terminates_without_SetVariable_cycle (S : USUDSScript) (N : Nat)
    (hnodes : ∀ n ∈ S.Nodes, n < N)
    (hclosed : ∀ n m, n < N → SingleEdgeStep S n m → m < N)
    (hacyclic : ∀ t ∈ S.Nodes, (S.Objects t).NodeType = .Text →
      ∀ v, Relation.ReflTransGen (SingleEdgeStep S) t v → ¬ OnSetVariableCycle S v) :
    (∃ T, FinishImport N S = some T ∧ ∀ fuel, N ≤ fuel → FinishImport fuel S = some T) ∧
    ∀ t ∈ S.Nodes, (S.Objects t).NodeType = .Text →
      (skipSetVariables S N (GetNextNode S t)).isSome = true ∧
      ∀ fuel, (visitedSetVariables S fuel (GetNextNode S t)).Nodup := by
  have hwalk : ∀ t ∈ S.Nodes, (S.Objects t).NodeType = .Text →
      (skipSetVariables S N (GetNextNode S t)).isSome = true :=
    fun t ht hText => skipSetVariables_ends S N t (hnodes t ht) hclosed (hacyclic t ht hText)
  refine ⟨?_, fun t ht hText => ⟨hwalk t ht hText, fun fuel => ?_⟩⟩
  · obtain ⟨T, hT⟩ := finishImportLoop_returns N S.Nodes S hwalk
    exact ⟨T, hT, fun fuel hle => finishImportLoop_mono N fuel hle S.Nodes S T hT⟩
  · exact visitedSetVariables_nodup S fuel _
      (fun v hv => hacyclic t ht hText v (visitedSetVariables_reachable S fuel t v hv))

/-- C23 on a script with a cycle through a Text node (0 leads to the SetVariable node 1,
which jumps back to 0): there is a cycle of single-edge steps at node 0, and `FinishImport`
returns with two iterations for each walk. -/
theorem FinishImport_terminates_on_back_jump :
    Relation.TransGen (SingleEdgeStep backJumpScript) 0 0 ∧
    (∃ T, FinishImport 2 backJumpScript = some T ∧
      ∀ fuel, 2 ≤ fuel → FinishImport fuel backJumpScript = some T) ∧
    visitedSetVariables backJumpScript 2 (GetNextNode backJumpScript 0) = [1] :=
  have h := FinishImport_terminates_without_SetVariable_cycle backJumpScript 2
    (by decide)
    (by
      intro n m hn hE
      match n, hn, hE with
      | 0, _, hE =>
        simp only [SingleEdgeStep, backJumpScript, plainNode, List.map_cons, List.map_nil,
          List.cons.injEq, FSUDSScriptEdge.mk.injEq, Option.some.injEq, and_true] at hE
        omega
      | 1, _, hE =>
        simp only [SingleEdgeStep, backJumpScript, plainNode, List.map_cons, List.map_nil,
          List.cons.injEq, FSUDSScriptEdge.mk.injEq, Option.some.injEq, and_true] at hE
        omega)
    (fun _ _ _ v _ => not_onSetVariableCycle_backJumpScript v)
  ⟨Relation.TransGen.head (b := 1) (by decide) (Relation.TransGen.single (by decide)),
    h.1, by decide⟩

end SUDS
